import Mathlib

/-!
# Verification of the psycopg3 core type-adaptation and cursor layer

Shallow embedding, in Lean 4, of the parts of the psycopg3 driver that the
verified claims are about:

* src/psycopg3/types/numeric.py  — built-in numeric / bool dumpers and loaders;
* src/psycopg3/types/composite.py — composite (tuple/record) text and binary
  dumpers and loaders, and composite registration;
* src/psycopg3/cursor.py — BaseCursor: _execute_send, _execute_results,
  fetchone, _cast_row.

Bytes are modelled as List Nat (each entry one byte value); Python ints are
Int; wire oids are Nat.  Functions that can raise in Python return Option or
are paired with an explicit error value.  Modules of the repository that are
referenced but whose sources are not available (adapt.py, exceptions.py,
utils/queries.py, oids.py, the pq enums) are modelled from the
specification; each such definition carries a doc comment saying so.
-/

/-! ## Bytes and network byte order packing (struct !h, !i, !q, !I, !d) -/

/-- A byte string: list of byte values (0..255). -/
abbrev ByteStr := List Nat

/-- Big-endian encoding of a natural number into exactly w bytes
(the value is taken modulo 256 ^ w, as struct.pack does after the
range check has been performed separately). -/
def toBytesBE : Nat → Nat → ByteStr
  | 0, _ => []
  | w + 1, n => toBytesBE w (n / 256) ++ [n % 256]

/-- Big-endian decoding of a byte string to a natural number. -/
def fromBytesBE (b : ByteStr) : Nat :=
  b.foldl (fun a c => a * 256 + c) 0

/-- struct.Struct pack of a signed integer on w bytes, network byte order:
two's complement, raising struct.error (modelled as none) when the value
does not fit. -/
def packIntBE (w : Nat) (v : Int) : Option ByteStr :=
  if -(2 ^ (8 * w - 1) : Int) ≤ v ∧ v < 2 ^ (8 * w - 1) then
    some (toBytesBE w (v % (2 ^ (8 * w) : Int)).toNat)
  else
    none

/-- struct.Struct unpack of a signed integer on w bytes, network byte order;
struct.error (modelled as none) when the buffer length differs from w. -/
def unpackIntBE (w : Nat) (b : ByteStr) : Option Int :=
  if b.length = w then
    some (if fromBytesBE b < 2 ^ (8 * w - 1) then (fromBytesBE b : Int)
          else (fromBytesBE b : Int) - 2 ^ (8 * w))
  else
    none

/-- struct.Struct unpack of an unsigned integer on w bytes (network order). -/
def unpackUintBE (w : Nat) (b : ByteStr) : Option Nat :=
  if b.length = w then some (fromBytesBE b) else none

/-! ## Postgres type oids

Modelled from the spec: types/oids.py is not among the available sources;
the oid values are the standard PostgreSQL catalog oids used by the builtins
table (the spec glossary fixes record = 2249). -/

def INT2_OID : Nat := 21
def INT4_OID : Nat := 23
def INT8_OID : Nat := 20
def OID_OID : Nat := 26
def FLOAT4_OID : Nat := 700
def FLOAT8_OID : Nat := 701
def NUMERIC_OID : Nat := 1700
def BOOL_OID : Nat := 16
def TEXT_OID : Nat := 25
def RECORD_OID : Nat := 2249

/-! ## Decimal strings

Python's int-to-string and Decimal semantics, needed by dump_int,
dump_decimal and load_numeric, at the level of byte strings.  A
decimal.Decimal value is modelled by its sign, coefficient and exponent
(finite case), or as an infinity or a quiet NaN. -/

/-- Base-10 digits of a natural number, least significant first, with an
explicit recursion budget (empty for zero). -/
def natDigitsAux : Nat → Nat → List Nat
  | 0, _ => []
  | fuel + 1, n => if n = 0 then [] else n % 10 :: natDigitsAux fuel (n / 10)

/-- Decimal digit characters of a natural number, most significant first
(Python str of a nonnegative int). -/
def natDigitBytes (n : Nat) : ByteStr :=
  if n = 0 then [48] else ((natDigitsAux n n).reverse.map (fun d => 48 + d))

/-- Python str of an int, as ascii bytes (codecs ascii encode). -/
def asciiOfInt (v : Int) : ByteStr :=
  if v < 0 then 45 :: natDigitBytes v.natAbs else natDigitBytes v.toNat

/-- Is b the code of an ascii decimal digit? -/
def isDigitByte (b : Nat) : Bool := 48 ≤ b && b ≤ 57

/-- Parse a nonempty all-digit byte string as a natural number;
none when empty or a non-digit occurs. -/
def digitsToNat (l : ByteStr) : Option Nat :=
  if l ≠ [] ∧ l.all isDigitByte then
    some (l.foldl (fun a b => a * 10 + (b - 48)) 0)
  else
    none

/-- Model of decimal.Decimal: finite values carry the sign, the coefficient
(a natural number: the digit string without leading zeros, as produced by
the Decimal string constructor) and the exponent; infinities carry a sign;
NaN is the quiet NaN. -/
inductive Dec : Type
  | finite (neg : Bool) (coeff : Nat) (exp : Int)
  | inf (neg : Bool)
  | nan
  deriving DecidableEq, Repr

/-- The signed integer obtained from a finite Decimal (sign, coefficient,
exponent) after scaling by ten to the minus m, for m at most the exponent:
comparing two finite Decimals at m the minimum of their exponents compares
their numeric values exactly. -/
def decScaled (neg : Bool) (c : Nat) (e : Int) (m : Int) : Int :=
  (if neg then -1 else 1) * (c : Int) * 10 ^ (e - m).toNat

/-- Python equality between two Decimal values: numeric comparison, false
when either side is a NaN, infinities equal when of the same sign. -/
def pyDecEq : Dec → Dec → Bool
  | .nan, _ => false
  | _, .nan => false
  | .inf a, .inf b => a == b
  | .inf _, .finite _ _ _ => false
  | .finite _ _ _, .inf _ => false
  | .finite n1 c1 e1, .finite n2 c2 e2 =>
    decide (decScaled n1 c1 e1 (min e1 e2) = decScaled n2 c2 e2 (min e1 e2))

/-- Python equality between an int and a Decimal (numeric). -/
def decEqInt (d : Dec) (v : Int) : Bool :=
  match d with
  | .finite neg c e =>
    decide (decScaled neg c e (min e 0) = v * 10 ^ ((0 : Int) - min e 0).toNat)
  | _ => false

/-- The unsigned body of the Python str of a finite Decimal with
coefficient c and exponent e (the to-scientific-string conversion of the
decimal arithmetic specification, which Python implements): plain notation
when e <= 0 and the adjusted exponent is at least -6, scientific notation
otherwise; byte 46 is the point, 69 the E, 43/45 the exponent signs. -/
def decBodyBytes (c : Nat) (e : Int) : ByteStr :=
  if e ≤ 0 ∧ -6 ≤ e + (natDigitBytes c).length - 1 then
    if e = 0 then natDigitBytes c
    else if -e < ((natDigitBytes c).length : Int) then
      (natDigitBytes c).take ((natDigitBytes c).length - (-e).toNat) ++
        46 :: (natDigitBytes c).drop ((natDigitBytes c).length - (-e).toNat)
    else
      48 :: 46 :: (List.replicate ((-e).toNat - (natDigitBytes c).length) 48 ++
        natDigitBytes c)
  else
    (match natDigitBytes c with
     | [d] => [d]
     | d :: rest => d :: 46 :: rest
     | [] => [48]) ++
    69 :: (if e + (natDigitBytes c).length - 1 < 0 then [45] else [43]) ++
    natDigitBytes (e + (natDigitBytes c).length - 1).natAbs

/-- Python str of a Decimal, as bytes: the optional sign then the body
(NaN prints without its sign context here, as the quiet NaN). -/
def decStrBytes : Dec → ByteStr
  | .nan => [78, 97, 78]
  | .inf neg =>
    (if neg then [45] else []) ++ [73, 110, 102, 105, 110, 105, 116, 121]
  | .finite neg c e =>
    if neg then 45 :: decBodyBytes c e else decBodyBytes c e

/-- Split a byte string at the first occurrence of a byte satisfying p:
returns the prefix and (when found) the suffix after the separator. -/
def splitFirst (p : Nat → Bool) : ByteStr → ByteStr × Option ByteStr
  | [] => ([], none)
  | b :: rest =>
    if p b then ([], some rest)
    else (b :: (splitFirst p rest).1, (splitFirst p rest).2)

/-- Case-insensitive comparison of a byte string with a lowercase ascii
word (Python Decimal accepts NaN / Infinity in any case): byte by byte,
equal or the uppercase letter of the word's lowercase letter. -/
def eqCaseInsensitive : ByteStr → ByteStr → Bool
  | [], [] => true
  | a :: s, b :: w =>
    (a == b || (65 ≤ a && a ≤ 90 && a + 32 == b)) && eqCaseInsensitive s w
  | _, _ => false

/-- Parse the exponent part of a Decimal literal: optional sign, then a
nonempty digit string. -/
def parseExpPart (s : ByteStr) : Option Int :=
  match s with
  | [] => none
  | b :: rest =>
    if b = 45 then (digitsToNat rest).map (fun n => -(n : Int))
    else if b = 43 then (digitsToNat rest).map (fun n => (n : Int))
    else (digitsToNat (b :: rest)).map (fun n => (n : Int))

/-- Parse an unsigned Decimal body (no leading sign): NaN, Infinity, or a
numeric string made of digits, an optional point and an optional exponent. -/
def parseDecBody (neg : Bool) (s : ByteStr) : Option Dec :=
  if eqCaseInsensitive s [110, 97, 110] then some .nan
  else if eqCaseInsensitive s [105, 110, 102] ||
          eqCaseInsensitive s [105, 110, 102, 105, 110, 105, 116, 121] then
    some (.inf neg)
  else
    let sp := splitFirst (fun b => b = 69 || b = 101) s
    let expVal : Option Int :=
      match sp.2 with
      | none => some 0
      | some ep => parseExpPart ep
    match expVal with
    | none => none
    | some ev =>
      let ms := splitFirst (fun b => b = 46) sp.1
      let frac := ms.2.getD []
      if (ms.1 ++ frac) ≠ [] ∧ (ms.1 ++ frac).all isDigitByte then
        some (.finite neg
          ((ms.1 ++ frac).foldl (fun a b => a * 10 + (b - 48)) 0)
          (ev - frac.length))
      else
        none

/-- Parse a Decimal literal: optional sign then body (the grammar of the
Python Decimal constructor, restricted to the forms Decimal str emits). -/
def parseDecBytes (s : ByteStr) : Option Dec :=
  match s with
  | [] => parseDecBody false []
  | b :: rest =>
    if b = 45 then parseDecBody true rest
    else if b = 43 then parseDecBody false rest
    else parseDecBody false (b :: rest)

/-! ## types/numeric.py -/

/-- numeric.py dump_int (text dumper for int, decorated Dumper.text(int)):
ascii of the decimal string, with the numeric oid because the width is not
known at serialization time. -/
def dump_int (obj : Int) : ByteStr × Nat :=
  (asciiOfInt obj, NUMERIC_OID)

/-- numeric.py dump_binary_int: narrowest of int2 / int4 / int8 by range;
struct.error (none) when the value does not fit int8 either (the source
carries a TODO saying it should fall back to numeric). -/
def dump_binary_int (obj : Int) : Option (ByteStr × Nat) :=
  if -0x8000 ≤ obj ∧ obj ≤ 0x7FFF then
    (packIntBE 2 obj).map (fun b => (b, INT2_OID))
  else if -0x80000000 ≤ obj ∧ obj ≤ 0x7FFFFFFF then
    (packIntBE 4 obj).map (fun b => (b, INT4_OID))
  else
    (packIntBE 8 obj).map (fun b => (b, INT8_OID))

/-- numeric.py dump_bool (text): t / f with the bool oid. -/
def dump_bool (obj : Bool) : ByteStr × Nat :=
  if obj then ([116], BOOL_OID) else ([102], BOOL_OID)

/-- numeric.py dump_binary_bool: one byte 1 / 0 with the bool oid. -/
def dump_binary_bool (obj : Bool) : ByteStr × Nat :=
  if obj then ([1], BOOL_OID) else ([0], BOOL_OID)

/-- numeric.py dump_decimal (text dumper for Decimal): ascii str of the
value, numeric oid. -/
def dump_decimal (obj : Dec) : ByteStr × Nat :=
  (decStrBytes obj, NUMERIC_OID)

/-- numeric.py load_int (text loader for int2/int4/int8/oid): Python
int of the ascii decoding. -/
def load_int (data : ByteStr) : Option Int :=
  match data with
  | [] => none
  | b :: rest =>
    if b = 45 then (digitsToNat rest).map (fun n => -(n : Int))
    else if b = 43 then (digitsToNat rest).map (fun n => (n : Int))
    else (digitsToNat (b :: rest)).map (fun n => (n : Int))

/-- numeric.py load_binary_int2: struct !h unpack. -/
def load_binary_int2 (data : ByteStr) : Option Int := unpackIntBE 2 data

/-- numeric.py load_binary_int4: struct !i unpack. -/
def load_binary_int4 (data : ByteStr) : Option Int := unpackIntBE 4 data

/-- numeric.py load_binary_int8: struct !q unpack. -/
def load_binary_int8 (data : ByteStr) : Option Int := unpackIntBE 8 data

/-- numeric.py load_binary_oid: struct !I unpack (unsigned). -/
def load_binary_oid (data : ByteStr) : Option Int :=
  (unpackUintBE 4 data).map (fun n => (n : Int))

/-- numeric.py load_numeric (text loader for the numeric oid): Decimal of
the ascii decoding. -/
def load_numeric (data : ByteStr) : Option Dec := parseDecBytes data

/-- numeric.py load_bool (text loader for the bool oid): the _bool_loads
dict, raising KeyError (none) on any other byte string. -/
def load_bool (data : ByteStr) : Option Bool :=
  if data = [116] then some true
  else if data = [102] then some false
  else none

/-- numeric.py load_binary_bool: the _bool_binary_loads dict. -/
def load_binary_bool (data : ByteStr) : Option Bool :=
  if data = [1] then some true
  else if data = [0] then some false
  else none

/-! ## Python floats

A Python float is modelled by its IEEE 754 binary64 bit pattern (a natural
number below 2 ^ 64); the binary float codec of numeric.py only moves those
bits.  Python equality on floats: false when either operand is a NaN, true
for the two zeros, bit equality otherwise. -/

/-- NaN test on a binary64 bit pattern: exponent field all ones and
nonzero mantissa. -/
def isNaNBits (bits : Nat) : Bool :=
  (bits / 2 ^ 52) % 2 ^ 11 = 2047 && bits % 2 ^ 52 ≠ 0

/-- Python float equality on bit patterns. -/
def pyFloatEq (a b : Nat) : Bool :=
  if isNaNBits a || isNaNBits b then false
  else a == b || (a % 2 ^ 63 = 0 && b % 2 ^ 63 = 0)

/-- numeric.py dump_binary_float: struct !d pack of the binary64 bits,
float8 oid. -/
def dump_binary_float (bits : Nat) : ByteStr × Nat :=
  (toBytesBE 8 bits, FLOAT8_OID)

/-- numeric.py load_binary_float8: struct !d unpack (bits of an 8-byte
buffer). -/
def load_binary_float8 (data : ByteStr) : Option Nat :=
  if data.length = 8 then some (fromBytesBE data) else none

/-! ## Python float text representation

numeric.py dump_float returns the ascii encoding of str(obj) with the
float8 oid, and load_float is the float() constructor on the bytes.
CPython specifies str on a float as the shortest decimal string that
float() reads back as the same value, rendered positionally when the
decimal exponent lies in [-4, 16) and scientifically otherwise; float()
parses an optional sign, digits with an optional point and exponent, or
an infinity or nan word, and rounds the decimal value to the nearest
binary64, ties to even.  The parser below implements that rounding
exactly over integers; str is implemented as its specification: the
first of the correctly rounded renderings of increasing significant-digit
count that reads back as the same bit pattern. -/

/-- Ascii whitespace (the float constructor strips it; the composite text
dumper quotes it). -/
def isSpaceByte (b : Nat) : Bool :=
  b = 32 || b = 9 || b = 10 || b = 13 || b = 12 || b = 11

/-- A byte lowered to its lowercase letter when it is an uppercase one. -/
def lowerByte (b : Nat) : Nat := if 65 ≤ b ∧ b ≤ 90 then b + 32 else b

/-- The leading run of digit bytes, and the rest. -/
def digitsRun : ByteStr → ByteStr × ByteStr
  | [] => ([], [])
  | c :: r =>
    if isDigitByte c then (c :: (digitsRun r).1, (digitsRun r).2)
    else ([], c :: r)

/-- Round-half-even integer division. -/
def divRoundEven (num den : Nat) : Nat :=
  let fl := num / den
  let rem := num % den
  if 2 * rem > den ∨ (2 * rem = den ∧ fl % 2 = 1) then fl + 1 else fl

/-- Base-two logarithm with an explicit recursion budget (zero for 0
and 1). -/
def log2Aux : Nat → Nat → Nat
  | 0, _ => 0
  | fuel + 1, n => if n ≤ 1 then 0 else log2Aux fuel (n / 2) + 1

/-- Floor of the base-two logarithm. -/
def natLog2 (n : Nat) : Nat := log2Aux n n

/-- Numerator and denominator of (N / D) scaled by two to the minus q. -/
def scaledPair (N D : Nat) (q : Int) : Nat × Nat :=
  if 0 ≤ q then (N, D * 2 ^ q.toNat) else (N * 2 ^ (-q).toNat, D)

/-- Adjust the binary exponent until the scaled quotient has 53 bits. -/
def adjustQ : Nat → Int → Nat → Nat → Int
  | 0, q, _, _ => q
  | fuel + 1, q, N, D =>
    let p := scaledPair N D q
    if 2 ^ 53 ≤ p.1 / p.2 then adjustQ fuel (q + 1) N D
    else if p.1 / p.2 < 2 ^ 52 then adjustQ fuel (q - 1) N D
    else q

/-- The positive-infinity bit pattern. -/
def INF_BITS : Nat := 2047 * 2 ^ 52

/-- The quiet-NaN bit pattern the float constructor produces for nan. -/
def NAN_BITS : Nat := 2047 * 2 ^ 52 + 2 ^ 51

/-- Pack a finite nonzero magnitude m times 2^q (53-bit m, or fewer in the
subnormal binade q = -1074) with a sign into binary64 bits. -/
def packFloatBits (neg : Bool) (m : Nat) (q : Int) : Nat :=
  (if neg then 2 ^ 63 else 0) +
    (if m < 2 ^ 52 then m else (q + 1075).toNat * 2 ^ 52 + (m - 2 ^ 52))

/-- The binary64 nearest (ties to even) to the signed decimal M times
10^E: the correctly rounded conversion of the float constructor. -/
def nearestFloatBits (neg : Bool) (M : Nat) (E : Int) : Nat :=
  if M = 0 then (if neg then 2 ^ 63 else 0)
  else
    let N := if 0 ≤ E then M * 10 ^ E.toNat else M
    let D := if 0 ≤ E then 1 else 10 ^ (-E).toNat
    let q1 := adjustQ 8 ((natLog2 N : Int) - (natLog2 D : Int) - 53) N D
    let q2 := if q1 < -1074 then -1074 else q1
    let p := scaledPair N D q2
    let m1 := divRoundEven p.1 p.2
    let m2 := if m1 = 2 ^ 53 then 2 ^ 52 else m1
    let q3 := if m1 = 2 ^ 53 then q2 + 1 else q2
    if m2 = 0 then (if neg then 2 ^ 63 else 0)
    else if 971 < q3 then (if neg then 2 ^ 63 + INF_BITS else INF_BITS)
    else packFloatBits neg m2 q3

/-- The exponent tail of a float literal: empty, or e with an optional
sign and a nonempty digit string that ends the input. -/
def parseFloatExp (s : ByteStr) : Option Int :=
  match s with
  | [] => some 0
  | c :: r =>
    if lowerByte c = 101 then
      match r with
      | 43 :: r2 => (digitsToNat r2).map (fun n => (n : Int))
      | 45 :: r2 => (digitsToNat r2).map (fun n => -(n : Int))
      | r2 => (digitsToNat r2).map (fun n => (n : Int))
    else none

/-- The body of a float literal: integer digits, an optional point and
fraction digits, then the exponent tail; the decimal value (M, E). -/
def parseFloatBody (s : ByteStr) : Option (Nat × Int) :=
  let ip := digitsRun s
  match ip.2 with
  | 46 :: r2 =>
    let fp := digitsRun r2
    if ip.1 = [] ∧ fp.1 = [] then none
    else
      (parseFloatExp fp.2).bind fun ex =>
        (digitsToNat (ip.1 ++ fp.1)).map fun m =>
          (m, ex - (fp.1.length : Int))
  | _ =>
    if ip.1 = [] then none
    else
      (parseFloatExp ip.2).bind fun ex =>
        (digitsToNat ip.1).map fun m => (m, ex)

/-- float() on a byte string: strip ascii whitespace, take an optional
sign, read an infinity or nan word or a decimal literal, and round to
the nearest binary64 (the underscored digit groups of PEP 515 are not
modelled). -/
def pyFloatParse (data : ByteStr) : Option Nat :=
  let t := ((data.dropWhile isSpaceByte).reverse.dropWhile isSpaceByte).reverse
  let sn : Bool × ByteStr :=
    match t with
    | 43 :: r => (false, r)
    | 45 :: r => (true, r)
    | r => (false, r)
  if eqCaseInsensitive sn.2 [105, 110, 102] ∨
      eqCaseInsensitive sn.2 [105, 110, 102, 105, 110, 105, 116, 121] then
    some (if sn.1 then 2 ^ 63 + INF_BITS else INF_BITS)
  else if eqCaseInsensitive sn.2 [110, 97, 110] then
    some (if sn.1 then 2 ^ 63 + NAN_BITS else NAN_BITS)
  else
    (parseFloatBody sn.2).map fun me => nearestFloatBits sn.1 me.1 me.2

/-- numeric.py load_float (the text loader for float4 and float8): the
float constructor on the bytes. -/
def load_float (data : ByteStr) : Option Nat := pyFloatParse data

/-- The sign bit of a binary64 pattern. -/
def floatSign (bits : Nat) : Bool := bits / 2 ^ 63 % 2 = 1

/-- The exponent field of a binary64 pattern. -/
def floatExpField (bits : Nat) : Nat := bits / 2 ^ 52 % 2 ^ 11

/-- The fraction field of a binary64 pattern. -/
def floatFrac (bits : Nat) : Nat := bits % 2 ^ 52

/-- The exact decimal value (M, E), magnitude M times 10^E, of a finite
binary64 pattern. -/
def floatExact (bits : Nat) : Nat × Int :=
  let m := if floatExpField bits = 0 then floatFrac bits
           else 2 ^ 52 + floatFrac bits
  let q : Int := if floatExpField bits = 0 then -1074
                 else (floatExpField bits : Int) - 1075
  if 0 ≤ q then (m * 2 ^ q.toNat, 0) else (m * 5 ^ (-q).toNat, q)

/-- The number of decimal digits (one for zero). -/
def numDigits (n : Nat) : Nat := (natDigitBytes n).length

/-- Drop trailing zero digits, moving them into the exponent. -/
def stripZerosAux : Nat → Nat → Int → Nat × Int
  | 0, M, E => (M, E)
  | fuel + 1, M, E =>
    if M % 10 = 0 ∧ M ≠ 0 then stripZerosAux fuel (M / 10) (E + 1) else (M, E)

/-- Drop the trailing zero digits of M, moving them into the exponent. -/
def stripZeros (M : Nat) (E : Int) : Nat × Int := stripZerosAux M M E

/-- The decimal M times 10^E correctly rounded (ties to even) to p
significant digits. -/
def roundSig (M : Nat) (E : Int) (p : Nat) : Nat × Int :=
  let d := numDigits M
  if d ≤ p then (M, E)
  else
    let M1 := divRoundEven M (10 ^ (d - p))
    if numDigits M1 = p + 1 then (M1 / 10, E + (d - p) + 1)
    else (M1, E + (d - p))

/-- The exponent suffix of the scientific rendering: e, a sign, at least
two digits. -/
def fmtExpPart (decExp : Int) : ByteStr :=
  [101] ++ (if decExp < 0 then [45] else [43]) ++
    (if decExp.natAbs < 10 then 48 :: natDigitBytes decExp.natAbs
     else natDigitBytes decExp.natAbs)

/-- Positional rendering of the digit bytes D with exponent E (the repr
format when the decimal exponent lies in [-4, 16)). -/
def fmtPositional (D : ByteStr) (E : Int) : ByteStr :=
  if 0 ≤ E then D ++ List.replicate E.toNat 48 ++ [46, 48]
  else if (D.length : Int) + E > 0 then
    D.take (D.length - (-E).toNat) ++ [46] ++ D.drop (D.length - (-E).toNat)
  else
    [48, 46] ++ List.replicate ((-E).toNat - D.length) 48 ++ D

/-- Python repr of the finite nonzero decimal (sign, M, E): positional
when the decimal exponent lies in [-4, 16), scientific otherwise. -/
def fmtFloat (neg : Bool) (M : Nat) (E : Int) : ByteStr :=
  let D := natDigitBytes M
  let decExp : Int := (D.length : Int) - 1 + E
  let body :=
    if -4 ≤ decExp ∧ decExp < 16 then fmtPositional D E
    else D.take 1 ++ (if D.length > 1 then 46 :: D.drop 1 else []) ++
      fmtExpPart decExp
  if neg then 45 :: body else body

/-- The candidate strings of str on a non-NaN float: the fixed words for
infinities and zeros, and for a finite nonzero value its correctly
rounded renderings at 1 to 17 significant digits and its exact decimal,
shortest first. -/
def floatCandidates (bits : Nat) : List ByteStr :=
  if floatExpField bits = 2047 then
    [if floatSign bits then [45, 105, 110, 102] else [105, 110, 102]]
  else if bits % 2 ^ 63 = 0 then
    [if floatSign bits then [45, 48, 46, 48] else [48, 46, 48]]
  else
    ((List.range 17).map fun i =>
      let r := roundSig (floatExact bits).1 (floatExact bits).2 (i + 1)
      let z := stripZeros r.1 r.2
      fmtFloat (floatSign bits) z.1 z.2) ++
    [let z := stripZeros (floatExact bits).1 (floatExact bits).2
     fmtFloat (floatSign bits) z.1 z.2]

/-- str on a non-NaN float as CPython specifies it — the shortest decimal
rendering that float() reads back as the same bit pattern — when the
search over the candidates selects one. -/
def pyFloatStrChecked (bits : Nat) : Option ByteStr :=
  (floatCandidates bits).find? (fun s => pyFloatParse s = some bits)

/-- Python str of a float: nan prints as the word nan; any other value as
its first round-tripping candidate (the exact rendering stands in on the
branch where no candidate checks). -/
def pyFloatStr (bits : Nat) : ByteStr :=
  if isNaNBits bits then [110, 97, 110]
  else
    match pyFloatStrChecked bits with
    | some s => s
    | none =>
      let z := stripZeros (floatExact bits).1 (floatExact bits).2
      fmtFloat (floatSign bits) z.1 z.2

/-- numeric.py dump_float (text dumper for float): ascii str of the
value, float8 oid. -/
def dump_float (bits : Nat) : ByteStr × Nat := (pyFloatStr bits, FLOAT8_OID)

/-! ## Python values and the loader registrations of numeric.py -/

/-- A Python runtime value of one of the built-in types the claims
quantify over. -/
inductive PyVal : Type
  | int (v : Int)
  | bool (b : Bool)
  | float (bits : Nat)
  | dec (d : Dec)
  deriving DecidableEq, Repr

/-- Python equality between two PyVal, including the numeric cross-type
comparisons the round-trips produce (int with Decimal). -/
def pyEq : PyVal → PyVal → Bool
  | .int a, .int b => a == b
  | .bool a, .bool b => a == b
  | .float a, .float b => pyFloatEq a b
  | .dec a, .dec b => pyDecEq a b
  | .int a, .dec d => decEqInt d a
  | .dec d, .int a => decEqInt d a
  | _, _ => false

/-- The binary loader registered in numeric.py for a given oid
(the Loader.binary decorations on load_binary_int2 / int4 / int8 / oid /
float4 / float8 / bool), producing a typed Python value. -/
def binaryLoaderFor (oid : Nat) (data : ByteStr) : Option PyVal :=
  if oid = INT2_OID then (load_binary_int2 data).map .int
  else if oid = INT4_OID then (load_binary_int4 data).map .int
  else if oid = INT8_OID then (load_binary_int8 data).map .int
  else if oid = OID_OID then (load_binary_oid data).map .int
  else if oid = BOOL_OID then (load_binary_bool data).map .bool
  else if oid = FLOAT8_OID then (load_binary_float8 data).map .float
  else none

/-- The text loader registered in numeric.py for a given oid
(Loader.text decorations: int2/int4/int8/oid, float4/float8, numeric,
bool). -/
def textLoaderFor (oid : Nat) (data : ByteStr) : Option PyVal :=
  if oid = INT2_OID ∨ oid = INT4_OID ∨ oid = INT8_OID ∨ oid = OID_OID then
    (load_int data).map .int
  else if oid = FLOAT4_OID ∨ oid = FLOAT8_OID then (load_float data).map .float
  else if oid = NUMERIC_OID then (load_numeric data).map .dec
  else if oid = BOOL_OID then (load_bool data).map .bool
  else none

/-! ## types/composite.py — text layout -/

/-- TextTupleDumper._re_needs_quotes: the empty string, or any occurrence
of a double quote, comma, backslash or whitespace. -/
def needsQuotes (ad : ByteStr) : Bool :=
  ad.isEmpty || ad.any (fun b => b = 34 || b = 44 || b = 92 || isSpaceByte b)

/-- TextTupleDumper._re_escape substitution: every double quote is doubled
(the pattern matches only the quote character, backslashes are left as
they are). -/
def escapeQuotes (ad : ByteStr) : ByteStr :=
  (ad.map (fun b => if b = 34 then [34, 34] else [b])).flatten

/-- One field of the text composite output: quoted (with quote doubling)
when _re_needs_quotes matches, bare otherwise. -/
def dumpTextField (ad : ByteStr) : ByteStr :=
  if needsQuotes ad then 34 :: (escapeQuotes ad ++ [34]) else ad

/-- The parts that one field contributes to the TextTupleDumper parts list:
a NULL slot (a None item, or a dumper that returned None) contributes only
its trailing comma, any other field its bytes and the comma. -/
def textParts : Option ByteStr → List ByteStr
  | none => [[44]]
  | some ad => [dumpTextField ad, [44]]

/-- TextTupleDumper.dump on a tuple whose fields have already been dumped
to bytes by the per-field transformer: the parts list opens with the
parenthesis and takes the parts of every field, and the final part (the
last field's comma) is overwritten by the closing parenthesis; the empty
tuple short-circuits to the two bytes ( ). -/
def TextTupleDumper_dump (obj : List (Option ByteStr)) : ByteStr × Nat :=
  if obj = [] then ([40, 41], TEXT_OID)
  else
    ((([40] :: (obj.map textParts).flatten).dropLast ++
      [[41]]).flatten, TEXT_OID)

/-- RecordLoader._re_undouble substitution: a doubled quote or doubled
backslash becomes a single one, scanning left to right. -/
def undouble : ByteStr → ByteStr
  | [] => []
  | [b] => [b]
  | a :: b :: r =>
    if (a = 34 ∧ b = 34) ∨ (a = 92 ∧ b = 92) then a :: undouble r
    else a :: undouble (b :: r)

/-- Is the byte one of the separators comma / closing parenthesis that end
a token in RecordLoader._re_tokenize? -/
def isSep (b : Nat) : Bool := b = 44 || b = 41

/-- Greedy match of the quoted-content group of _re_tokenize: consume
doubled quotes and non-quote bytes, stop at a lone quote; returns the
content and the unconsumed suffix.  For any buffer on which the regex has
a match this agrees with the backtracking engine, because the group can
end only right before a quote and every quote inside the consumed region
is half of a doubled pair. -/
def qscan : ByteStr → ByteStr × ByteStr
  | [] => ([], [])
  | [b] => if b = 34 then ([], [34]) else ([b], [])
  | a :: b :: r =>
    if a = 34 then
      if b = 34 then
        let p := qscan r
        (34 :: 34 :: p.1, p.2)
      else ([], 34 :: b :: r)
    else
      let p := qscan (b :: r)
      (a :: p.1, p.2)

/-- Greedy match of the bare-field character class of _re_tokenize: a run
of bytes other than quote, comma and closing parenthesis. -/
def uscan : ByteStr → ByteStr × ByteStr
  | [] => ([], [])
  | b :: r =>
    if b = 34 || b = 44 || b = 41 then ([], b :: r)
    else let p := uscan r; (b :: p.1, p.2)

/-- First alternative of _re_tokenize (an empty token, NULL): an optional
opening parenthesis then a separator.  The greedy optional parenthesis is
tried first; when it is taken the next byte must be the separator, and on
failure the engine retries without it (an opening parenthesis is itself
never a separator, so that retry fails whenever the first does). -/
def matchAlt1 : ByteStr → Option (Option ByteStr × ByteStr)
  | [] => none
  | a :: rest =>
    if a = 40 then
      match rest with
      | [] => none
      | c :: r => if isSep c then some (none, r) else none
    else if isSep a then some (none, rest) else none

/-- Core of the second alternative (a quoted string) starting at the
opening quote: quoted content, closing quote, separator; the token is the
content with doubled quotes and backslashes undoubled. -/
def matchQuotedCore : ByteStr → Option (Option ByteStr × ByteStr)
  | [] => none
  | a :: r =>
    if a = 34 then
      let p := qscan r
      match p.2 with
      | b :: c :: r2 =>
        if b = 34 ∧ isSep c then some (some (undouble p.1), r2) else none
      | _ => none
    else none

/-- Second alternative of _re_tokenize: optional opening parenthesis, then
a quoted string.  When the optional parenthesis is consumed the quote must
follow it; otherwise the buffer itself must start with the quote. -/
def matchAlt2 (s : ByteStr) : Option (Option ByteStr × ByteStr) :=
  if s.take 2 = [40, 34] then matchQuotedCore (s.drop 1) else matchQuotedCore s

/-- Core of the third alternative (a bare field): a nonempty run of bytes
outside quote / comma / closing parenthesis, then a separator. -/
def matchBareCore (s : ByteStr) : Option (Option ByteStr × ByteStr) :=
  let p := uscan s
  if p.1 = [] then none
  else
    match p.2 with
    | c :: r => if isSep c then some (some p.1, r) else none
    | [] => none

/-- Third alternative of _re_tokenize: the greedy optional parenthesis is
consumed first; if no match results the engine backtracks and the run may
then start at the parenthesis itself (the opening parenthesis belongs to
the bare character class). -/
def matchAlt3 (s : ByteStr) : Option (Option ByteStr × ByteStr) :=
  if s.head? = some 40 then
    match matchBareCore (s.drop 1) with
    | some x => some x
    | none => matchBareCore s
  else matchBareCore s

/-- One attempted match of _re_tokenize at the head of the buffer, trying
the three alternatives in the order of the pattern. -/
def matchAt (s : ByteStr) : Option (Option ByteStr × ByteStr) :=
  match matchAlt1 s with
  | some x => some x
  | none =>
    match matchAlt2 s with
    | some x => some x
    | none => matchAlt3 s

/-- The finditer loop over _re_tokenize: successive non-overlapping
matches, advancing one byte past positions where no alternative matches;
the budget bounds the number of steps (every match consumes at least one
byte). -/
def tokenizeAux : Nat → ByteStr → List (Option ByteStr)
  | 0, _ => []
  | _ + 1, [] => []
  | fuel + 1, b :: r =>
    match matchAt (b :: r) with
    | some (tok, rest) => tok :: tokenizeAux fuel rest
    | none => tokenizeAux fuel r

/-- RecordLoader._parse_record: the literal two-byte record ( ) yields no
fields, any other buffer is tokenized. -/
def parseRecord (data : ByteStr) : List (Option ByteStr) :=
  if data = [40, 41] then [] else tokenizeAux data.length data

/-- Modelled from the spec: the text loader resolved for the text oid
returns the bytes decoded through the client encoding (types/text.py is
not among the available sources); at the byte level it is the identity. -/
def text_loader (data : ByteStr) : ByteStr := data

/-- RecordLoader.load: every non-NULL token is passed through the load
function resolved for the text oid at text format. -/
def RecordLoader_load (data : ByteStr) : List (Option ByteStr) :=
  (parseRecord data).map (fun t => t.map text_loader)

/-! ## types/composite.py — binary layout -/

/-- Modelled from the spec: Transformer.dump at binary format resolves the
dumper through the adapter registry by the runtime type of the value
(adaptation.py is not among the available sources); the binary built-ins
of numeric.py serve int, bool and float, a None value dumps to the NULL
sentinel with no oid attached, and a type with no binary dumper raises
(none). -/
def txDumpBinary : Option PyVal → Option (Option ByteStr × Nat)
  | none => some (none, TEXT_OID)
  | some (.int v) => (dump_binary_int v).map (fun p => (some p.1, p.2))
  | some (.bool b) => some (some (dump_binary_bool b).1, (dump_binary_bool b).2)
  | some (.float bits) =>
    some (some (dump_binary_float bits).1, (dump_binary_float bits).2)
  | some (.dec _) => none

/-- The bytes BinaryTupleDumper.dump appends for one dumped field: the
struct !Ii header carrying the oid and the length, minus one for NULL,
then the payload. -/
def binFieldParts (p : Option ByteStr × Nat) : Option ByteStr :=
  match p.1 with
  | none => (packIntBE 4 (-1)).map (fun lb => toBytesBE 4 p.2 ++ lb)
  | some ad =>
    (packIntBE 4 (ad.length : Int)).map (fun lb => toBytesBE 4 p.2 ++ lb ++ ad)

/-- One field of BinaryTupleDumper.dump: the transformer's binary dump of
the item followed by the header-and-payload encoding. -/
def encodeBinField (item : Option PyVal) : Option ByteStr :=
  (txDumpBinary item).bind binFieldParts

/-- The loop of BinaryTupleDumper.dump over the tuple's items: each item's
encoded field in order, none as soon as one item fails to dump. -/
def encodeFields : List (Option PyVal) → Option (List ByteStr)
  | [] => some []
  | it :: rest =>
    (encodeBinField it).bind fun fb => (encodeFields rest).map (fun fs => fb :: fs)

/-- BinaryTupleDumper.dump: struct !i field count, then the encoded
fields; the oid is the class attribute set at registration time. -/
def BinaryTupleDumper_dump (oid : Nat) (obj : List (Option PyVal)) :
    Option (ByteStr × Nat) :=
  (packIntBE 4 (obj.length : Int)).bind (fun hdr =>
    (encodeFields obj).map (fun fs => (hdr ++ fs.flatten, oid)))

/-- BinaryRecordLoader._walk_record body: k remaining fields starting at
absolute offset i; yields (oid, payload offset, signed length) triples,
advancing by 8 plus the length only when the length is positive;
struct.error (none) when the buffer is too short for a header. -/
def walkRecordAux : Nat → ByteStr → Nat → Option (List (Nat × Nat × Int))
  | 0, _, _ => some []
  | k + 1, data, i =>
    (unpackUintBE 4 ((data.drop i).take 4)).bind fun oid =>
    (unpackIntBE 4 ((data.drop (i + 4)).take 4)).bind fun len =>
    (walkRecordAux k data (if 0 < len then i + 8 + len.toNat else i + 8)).map
      (fun rest => (oid, i + 8, len) :: rest)

/-- One field of the BinaryRecordLoader.load generator: None when the
walked length is the NULL sentinel -1, otherwise the binary loader
registered for the field's oid applied to the payload slice. -/
def loadBinField (data : ByteStr) (t : Nat × Nat × Int) :
    Option (Option PyVal) :=
  if t.2.2 = -1 then some none
  else (binaryLoaderFor t.1 ((data.drop t.2.1).take t.2.2.toNat)).map some

/-- The tuple() loop of BinaryRecordLoader.load over the walked triples. -/
def loadBinFields (data : ByteStr) : List (Nat × Nat × Int) →
    Option (List (Option PyVal))
  | [] => some []
  | t :: ts =>
    (loadBinField data t).bind fun v =>
      (loadBinFields data ts).map (fun vs => v :: vs)

/-- BinaryRecordLoader.load: read the field count, walk the record, slice
each payload (None when the length is the NULL sentinel -1) and load it
through the binary loader registered for the field's oid. -/
def BinaryRecordLoader_load (data : ByteStr) : Option (List (Option PyVal)) :=
  (unpackIntBE 4 (data.take 4)).bind fun n =>
  if n < 0 then some []
  else
    (walkRecordAux n.toNat data 4).bind fun triples =>
      loadBinFields data triples

/-! ## types/composite.py — register -/

/-- The wire format enumeration (pq Format; text = 0, binary = 1). -/
inductive Format : Type
  | text
  | binary
  deriving DecidableEq, Repr

/-- The adapter classes generated by composite register: the two tuple
dumper subclasses carry the configured oid (and field oids for the binary
one), the two loader subclasses carry the factory (true when an
application factory was supplied, false for the generated namedtuple) and,
for the text one, the field type oids. -/
inductive GenAdapter : Type
  | textTupleDumper (oid : Nat)
  | binaryTupleDumper (oid : Nat) (fieldsOids : List Nat)
  | compositeLoader (customFactory : Bool) (fieldsTypes : List Nat)
  | binaryCompositeLoader (customFactory : Bool)
  deriving DecidableEq, Repr

/-- The adapter maps of one scope: dumpers keyed by (class, format),
loaders keyed by (oid, format), plus the array registrations performed for
composite array oids. -/
structure Registry : Type where
  dumpers : List ((Nat × Format) × GenAdapter)
  loaders : List ((Nat × Format) × GenAdapter)
  arrays : List (Nat × Nat)
  deriving DecidableEq, Repr

/-- Lookup in an adapter map. -/
def mapGet (m : List ((Nat × Format) × GenAdapter)) (k : Nat × Format) :
    Option GenAdapter :=
  (m.find? (fun p => p.1 = k)).map (·.2)

/-- Modelled from the spec: Dumper.register and Loader.register store the
adapter under its key in the map of the chosen scope, a later registration
for the same key replacing the earlier one (adapt.py is not among the
available sources). -/
def mapSet (m : List ((Nat × Format) × GenAdapter)) (k : Nat × Format)
    (v : GenAdapter) : List ((Nat × Format) × GenAdapter) :=
  (k, v) :: m.filter (fun p => ¬ p.1 = k)

/-- composite.CompositeTypeInfo: name, oid, array oid and the field type
oids in declaration order. -/
structure CompositeTypeInfo : Type where
  oid : Nat
  array_oid : Nat
  fieldOids : List Nat
  deriving DecidableEq, Repr

/-- composite.register(info, context, cls, factory), acting on the adapter
maps of the chosen scope.  Faithful to the source order: when a class is
given, the generated Text...Dumper subclass is registered under
format=Format.BINARY (as written at composite.py line 76) and then the
generated Binary...Dumper subclass is registered, also under
format=Format.BINARY; the text loader is registered for (oid, TEXT), the
binary loader for (oid, BINARY); the array oid is registered when
nonzero. -/
def composite_register (info : CompositeTypeInfo) (cls : Option Nat)
    (customFactory : Bool) (reg : Registry) : Registry :=
  let reg :=
    match cls with
    | none => reg
    | some c =>
      let d1 := mapSet reg.dumpers (c, .binary) (.textTupleDumper info.oid)
      let d2 := mapSet d1 (c, .binary) (.binaryTupleDumper info.oid info.fieldOids)
      { reg with dumpers := d2 }
  let l1 := mapSet reg.loaders (info.oid, .text)
      (.compositeLoader customFactory info.fieldOids)
  let l2 := mapSet l1 (info.oid, .binary) (.binaryCompositeLoader customFactory)
  let reg := { reg with loaders := l2 }
  if info.array_oid ≠ 0 then
    { reg with arrays := reg.arrays ++ [(info.array_oid, info.oid)] }
  else reg

/-! ## cursor.py — BaseCursor -/

/-- Modelled from the spec: the pq ExecStatus enumeration (pq/enums.py is
not among the available sources); the constructors used by cursor.py plus
the remaining libpq statuses. -/
inductive ExecStatus : Type
  | emptyQuery
  | commandOk
  | tuplesOk
  | copyOut
  | copyIn
  | badResponse
  | nonfatalError
  | fatalError
  | copyBoth
  | singleTuple
  deriving DecidableEq, Repr

/-- The name attribute of an ExecStatus member, as in the enum. -/
def statusName : ExecStatus → String
  | .emptyQuery => "EMPTY_QUERY"
  | .commandOk => "COMMAND_OK"
  | .tuplesOk => "TUPLES_OK"
  | .copyOut => "COPY_OUT"
  | .copyIn => "COPY_IN"
  | .badResponse => "BAD_RESPONSE"
  | .nonfatalError => "NONFATAL_ERROR"
  | .fatalError => "FATAL_ERROR"
  | .copyBoth => "COPY_BOTH"
  | .singleTuple => "SINGLE_TUPLE"

/-- A server result as the cursor sees it: execution status, the SQLSTATE
diagnostic field, the rendered server error message, and the unparsed row
payloads. -/
structure PGresult : Type where
  status : ExecStatus
  sqlstate : Option ByteStr
  errorMsg : String
  tuples : List (List (Option ByteStr))
  deriving DecidableEq, Repr

/-- The exception classes of the error taxonomy that the cursor layer can
select. -/
inductive ExcClass : Type
  | operationalError
  | interfaceError
  | programmingError
  | databaseError
  | uniqueViolation
  | integrityError
  | dataError
  | serializationFailure
  | notSupportedError
  | internalError
  deriving DecidableEq, Repr

/-- A raised Python exception: its class and its message. -/
structure PyExc : Type where
  cls : ExcClass
  msg : String
  deriving DecidableEq, Repr

/-- Modelled from the spec: exceptions.class_for_state maps the SQLSTATE
diagnostic to an exception class — 23505 UniqueViolation, 40001
SerializationFailure, class 23 IntegrityError, class 22 DataError, class
0A NotSupportedError — and any unmapped code falls back to DatabaseError
(exceptions.py is not among the available sources; the mapping follows
section 7 of the spec). -/
def class_for_state (st : Option ByteStr) : ExcClass :=
  match st with
  | none => .databaseError
  | some s =>
    if s = [50, 51, 53, 48, 53] then .uniqueViolation
    else if s = [52, 48, 48, 48, 49] then .serializationFailure
    else if s.take 2 = [50, 51] then .integrityError
    else if s.take 2 = [50, 50] then .dataError
    else if s.take 2 = [48, 65] then .notSupportedError
    else .databaseError

/-- Modelled from the spec: pq.error_message renders the server
diagnostics of a result (pq/misc.py is not among the available sources). -/
def error_message (r : PGresult) : String := r.errorMsg

/-- Is the status one of the three acceptable statuses of
_execute_results? -/
def goodStatus (s : ExecStatus) : Bool :=
  s = .tuplesOk || s = .commandOk || s = .emptyQuery

/-- The mutable cursor fields that _reset initializes and that
_execute_results and fetchone touch. -/
structure CursorState : Type where
  results : List PGresult
  result : Option PGresult
  pos : Nat
  deriving Repr

/-- BaseCursor._execute_results as a state transformer: returns the state
after the call together with the raised exception, if any (the state is
returned unchanged on every raising path, as in the source, where the
stored results are assigned only in the all-good branch). -/
def executeResults (st : CursorState) (results : List PGresult) :
    CursorState × Option PyExc :=
  match results with
  | [] => (st, some ⟨.internalError, "got no result from the query"⟩)
  | r :: rest =>
    let rs := r :: rest
    let badstats := ((rs.map (·.status)).filter (fun s => ¬ goodStatus s)).dedup
    if badstats = [] then
      ({ st with results := rs, result := some r }, none)
    else
      let lastRes := rs.getLast (by simp)
      if lastRes.status = .fatalError then
        (st, some ⟨class_for_state lastRes.sqlstate, error_message lastRes⟩)
      else if badstats.any (fun s => s = .copyIn || s = .copyOut || s = .copyBoth) then
        (st, some ⟨.programmingError,
          "COPY cannot be used with execute(); use copy() insead"⟩)
      else
        (st, some ⟨.internalError,
          "got unexpected status from query: " ++
            String.intercalate ", "
              ((badstats.map statusName).mergeSort (fun a b => a ≤ b))⟩)

/-- BaseCursor._cast_row, parameterized by the row-decoding function of
the transformer (adaptation.py is not among the available sources; the
decoder may raise, for instance a DataError from a loader): None when
there is no current result or the index is at or past ntuples, otherwise
the decoded row. -/
def cast_row (decode : PGresult → Nat → Except PyExc (List (Option PyVal)))
    (st : CursorState) (n : Nat) : Except PyExc (Option (List (Option PyVal))) :=
  match st.result with
  | none => .ok none
  | some res =>
    if n ≥ res.tuples.length then .ok none
    else (decode res n).map some

/-- BaseCursor.fetchone: cast the row at the current position; the
position advances only after a row was successfully produced (an exception
from _cast_row propagates before the increment, and a None return skips
it). -/
def fetchone (decode : PGresult → Nat → Except PyExc (List (Option PyVal)))
    (st : CursorState) :
    CursorState × Except PyExc (Option (List (Option PyVal))) :=
  match cast_row decode st st.pos with
  | .error e => (st, .error e)
  | .ok none => (st, .ok none)
  | .ok (some row) => ({ st with pos := st.pos + 1 }, .ok (some row))

/-! ## cursor.py — _execute_send and the query preparer -/

/-- Modelled from the spec: the placeholder rewriting of
utils/queries.query2pg for the positional style of section 4.7 — a doubled
percent becomes a single percent, the placeholder percent-s becomes the
positional dollar-number parameter reference, counting from one
(utils/queries.py is not among the available sources). -/
def query2pgAux : ByteStr → Nat → ByteStr
  | [], _ => []
  | 37 :: 37 :: rest, n => 37 :: query2pgAux rest n
  | 37 :: 115 :: rest, n => (36 :: natDigitBytes (n + 1)) ++ query2pgAux rest (n + 1)
  | c :: rest, n => c :: query2pgAux rest n

/-- Modelled from the spec: utils/queries.query2pg returns the rewritten
query, one wire format per parameter, and the reorder permutation (none
for the positional style). -/
def query2pg (query : ByteStr) (vars : List PyVal) :
    ByteStr × List Format × Option (List Nat) :=
  (query2pgAux query 0, List.replicate vars.length Format.text, none)

/-- The protocol packet that _execute_send hands to the connection: the
simple-query packet of send_query, or the extended-query packet of
send_query_params. -/
inductive SentPacket : Type
  | sendQuery (query : ByteStr)
  | sendQueryParams (query : ByteStr) (params : List (Option ByteStr))
      (paramFormats : List Format) (paramTypes : List Nat)
      (resultFormat : Format)
  deriving DecidableEq, Repr

/-- BaseCursor._execute_send, parameterized by the transformer's
adapt_sequence (adaptation.py is not among the available sources): when a
parameter vector is supplied — even an empty one — the query is rewritten
by query2pg; the extended-query packet is sent exactly when the vector is
non-empty, otherwise the simple-query packet carries whatever query is in
scope at that point. -/
def executeSend (adapt : List PyVal → List (Option ByteStr) × List Nat)
    (binary : Bool) (query : ByteStr) (vars : Option (List PyVal)) : SentPacket :=
  match vars with
  | none => .sendQuery query
  | some vs =>
    let q2 := query2pg query vs
    if vs = [] then .sendQuery q2.1
    else
      let pt := adapt vs
      .sendQueryParams q2.1 pt.1 q2.2.1 pt.2
        (if binary then .binary else .text)

/-! ## Side conditions of the round-trip statements -/

/-- No two adjacent backslash bytes: the condition under which the quote
doubling of the text dumper is exactly undone by the loader's undoubling
(the dumper doubles only quotes, the loader undoubles quotes and
backslashes). -/
def noBackslashPair : ByteStr → Bool
  | [] => true
  | [_] => true
  | a :: b :: r => if a = 92 ∧ b = 92 then false else noBackslashPair (b :: r)

/-- A dumped text field that the record tokenizer maps back to itself: no
adjacent backslash pair, and a field left bare by the dumper must contain
no closing parenthesis and must not begin with an opening one (those bytes
do not force quoting in _re_needs_quotes but confuse _re_tokenize). -/
def textFieldOk (ad : ByteStr) : Bool :=
  noBackslashPair ad &&
    (needsQuotes ad || (!ad.contains 41 && ad.head? ≠ some 40))

/-- The bytes a field contributes to the text composite output, before its
separator: nothing for NULL, the (possibly quoted) dumped field
otherwise. -/
def fieldBytes : Option ByteStr → ByteStr
  | none => []
  | some ad => dumpTextField ad

/-- The text composite output after the opening parenthesis: fields
separated by commas, closed by the final parenthesis. -/
def encodeTail : List (Option ByteStr) → ByteStr
  | [] => []
  | i :: rest =>
    fieldBytes i ++ (if rest.isEmpty then [41] else 44 :: encodeTail rest)

/-- A binary composite field whose float payloads carry genuine binary64
bit patterns (below 2 ^ 64), so that the 8-byte encoding is lossless. -/
def floatBitsOk : Option PyVal → Bool
  | some (.float bits) => bits < 2 ^ 64
  | _ => true

/-! # Lemmas and theorems -/

/-! ## Packing round trips -/

theorem toBytesBE_length (w n : Nat) : (toBytesBE w n).length = w := by
  induction w generalizing n with
  | zero => rfl
  | succ w ih => simp [toBytesBE, ih]

theorem fromBytesBE_append_one (l : ByteStr) (b : Nat) :
    fromBytesBE (l ++ [b]) = fromBytesBE l * 256 + b := by
  simp [fromBytesBE, List.foldl_append]

theorem fromBytesBE_toBytesBE (w n : Nat) :
    fromBytesBE (toBytesBE w n) = n % 256 ^ w := by
  induction w generalizing n with
  | zero => simp [toBytesBE, fromBytesBE, Nat.mod_one]
  | succ w ih =>
    rw [toBytesBE, fromBytesBE_append_one, ih]
    rw [pow_succ']
    rw [Nat.mod_mul]
    ring

theorem unpackIntBE_packIntBE {w : Nat} (hw : 1 ≤ w) {v : Int} {b : ByteStr}
    (h : packIntBE w v = some b) : unpackIntBE w b = some v := by
  unfold packIntBE at h
  split at h
  case isFalse => exact absurd h (by simp)
  case isTrue hr =>
    obtain ⟨h1, h2⟩ := hr
    have hb : b = toBytesBE w (v % (2 ^ (8 * w) : Int)).toNat := by
      injection h with h
      exact h.symm
    subst hb
    have hMpos : (0 : Int) < 2 ^ (8 * w) := by positivity
    have hM2 : (2 : Int) ^ (8 * w) = 2 * 2 ^ (8 * w - 1) := by
      have he : 8 * w = (8 * w - 1) + 1 := by omega
      calc (2 : Int) ^ (8 * w) = 2 ^ ((8 * w - 1) + 1) := by rw [← he]
        _ = 2 ^ (8 * w - 1) * 2 := pow_succ 2 (8 * w - 1)
        _ = 2 * 2 ^ (8 * w - 1) := by ring
    have hnn : (0 : Int) ≤ v % 2 ^ (8 * w) := Int.emod_nonneg v (by positivity)
    have hlt : v % 2 ^ (8 * w) < 2 ^ (8 * w) := Int.emod_lt_of_pos v hMpos
    have hcast : ((2 ^ (8 * w - 1) : Nat) : Int) = 2 ^ (8 * w - 1) := by
      push_cast
      rfl
    have h256 : (256 : Nat) ^ w = 2 ^ (8 * w) := by
      rw [Nat.pow_mul]
    have hcastM : ((2 ^ (8 * w) : Nat) : Int) = 2 ^ (8 * w) := by
      push_cast
      rfl
    have hsmall : (v % 2 ^ (8 * w)).toNat < 256 ^ w := by
      rw [h256]
      omega
    unfold unpackIntBE
    rw [toBytesBE_length, if_pos rfl, fromBytesBE_toBytesBE,
      Nat.mod_eq_of_lt hsmall]
    have hvmod : v % 2 ^ (8 * w) = if 0 ≤ v then v else v + 2 ^ (8 * w) := by
      split
      case isTrue hpos =>
        exact Int.emod_eq_of_lt hpos (by omega)
      case isFalse hneg =>
        have hlt2 : v + 2 ^ (8 * w) < 2 ^ (8 * w) := by omega
        have hge2 : (0 : Int) ≤ v + 2 ^ (8 * w) := by omega
        have := Int.add_mul_emod_self_left (a := v) (b := (2 ^ (8 * w) : Int))
          (c := 1)
        rw [mul_one] at this
        rw [← this, Int.emod_eq_of_lt hge2 hlt2]
    split
    case isTrue hbr =>
      have : ((v % 2 ^ (8 * w)).toNat : Int) < 2 ^ (8 * w - 1) := by omega
      congr 1
      omega
    case isFalse hbr =>
      have : ¬ ((v % 2 ^ (8 * w)).toNat : Int) < 2 ^ (8 * w - 1) := by omega
      congr 1
      omega

/-! ## Decimal strings: digits lemmas -/

theorem natDigitsAux_foldr (fuel : Nat) :
    ∀ n, n ≤ fuel →
      (natDigitsAux fuel n).foldr (fun d a => a * 10 + d) 0 = n := by
  induction fuel with
  | zero =>
    intro n hn
    simp [natDigitsAux]
    omega
  | succ fuel ih =>
    intro n hn
    by_cases h0 : n = 0
    · subst h0
      simp [natDigitsAux]
    · rw [natDigitsAux, if_neg h0, List.foldr_cons]
      have hlt : n / 10 < n := Nat.div_lt_self (Nat.pos_of_ne_zero h0) (by omega)
      rw [ih (n / 10) (by omega)]
      omega

theorem natDigitsAux_lt_ten (fuel : Nat) :
    ∀ n, ∀ d ∈ natDigitsAux fuel n, d < 10 := by
  induction fuel with
  | zero =>
    intro n d hd
    simp [natDigitsAux] at hd
  | succ fuel ih =>
    intro n d hd
    by_cases h0 : n = 0
    · subst h0
      simp [natDigitsAux] at hd
    · rw [natDigitsAux, if_neg h0] at hd
      rcases List.mem_cons.mp hd with h | h
      · subst h
        omega
      · exact ih (n / 10) d h

theorem natDigitsAux_ne_nil (fuel n : Nat) (h0 : n ≠ 0) (hf : 1 ≤ fuel) :
    natDigitsAux fuel n ≠ [] := by
  cases fuel with
  | zero => omega
  | succ fuel =>
    rw [natDigitsAux, if_neg h0]
    simp

theorem natDigitBytes_ne_nil (n : Nat) : natDigitBytes n ≠ [] := by
  unfold natDigitBytes
  split
  · simp
  case isFalse h0 =>
    simp only [ne_eq, List.map_eq_nil_iff, List.reverse_eq_nil_iff]
    exact natDigitsAux_ne_nil n n h0 (by omega)

theorem natDigitBytes_digits (n : Nat) :
    ∀ b ∈ natDigitBytes n, isDigitByte b = true := by
  unfold natDigitBytes
  split
  · intro b hb
    simp at hb
    subst hb
    decide
  case isFalse h0 =>
    intro b hb
    simp only [List.mem_map, List.mem_reverse] at hb
    obtain ⟨d, hd, rfl⟩ := hb
    have := natDigitsAux_lt_ten n n d hd
    simp [isDigitByte]
    omega

theorem isDigitByte_bounds {b : Nat} (h : isDigitByte b = true) :
    48 ≤ b ∧ b ≤ 57 := by
  simp [isDigitByte] at h
  exact h

theorem foldl_digits_natDigitBytes (n : Nat) :
    (natDigitBytes n).foldl (fun a b => a * 10 + (b - 48)) 0 = n := by
  unfold natDigitBytes
  split
  case isTrue h0 =>
    subst h0
    rfl
  case isFalse h0 =>
    rw [List.foldl_map, List.foldl_reverse]
    have he : (fun (a d : Nat) => a * 10 + (48 + d - 48)) =
        fun (a d : Nat) => a * 10 + d := by
      funext a d
      omega
    calc (natDigitsAux n n).foldr
          (fun d a => (fun a d => a * 10 + (48 + d - 48)) a d) 0
        = (natDigitsAux n n).foldr (fun d a => a * 10 + d) 0 := by rw [he]
      _ = n := natDigitsAux_foldr n n le_rfl

theorem digitsToNat_natDigitBytes (n : Nat) :
    digitsToNat (natDigitBytes n) = some n := by
  unfold digitsToNat
  rw [if_pos]
  · rw [foldl_digits_natDigitBytes]
  · exact ⟨natDigitBytes_ne_nil n,
      List.all_eq_true.mpr (by
        intro b hb
        exact natDigitBytes_digits n b hb)⟩

theorem foldl_digits_replicate_zeros (k : Nat) (l : ByteStr) :
    (List.replicate k 48 ++ l).foldl (fun a b => a * 10 + (b - 48)) 0 =
      l.foldl (fun a b => a * 10 + (b - 48)) 0 := by
  induction k with
  | zero => rfl
  | succ k ih =>
    rw [List.replicate_succ, List.cons_append, List.foldl_cons]
    simpa using ih

theorem splitFirst_not_found {p : Nat → Bool} {l : ByteStr}
    (h : ∀ x ∈ l, p x = false) : splitFirst p l = (l, none) := by
  induction l with
  | nil => rfl
  | cons b r ih =>
    rw [splitFirst, if_neg (by simp [h b (by simp)]),
      ih (fun x hx => h x (by simp [hx]))]

theorem splitFirst_found {p : Nat → Bool} (a : ByteStr) (b : Nat) (c : ByteStr)
    (ha : ∀ x ∈ a, p x = false) (hb : p b = true) :
    splitFirst p (a ++ b :: c) = (a, some c) := by
  induction a with
  | nil => simp [splitFirst, hb]
  | cons x r ih =>
    rw [List.cons_append, splitFirst, if_neg (by simp [ha x (by simp)]),
      ih (fun y hy => ha y (by simp [hy]))]

/-! ## Decimal round trip -/

theorem eqCI_false_of_digit_head {a b : Nat} (ha : a ≤ 57) (hb : 65 ≤ b)
    (s w : ByteStr) : eqCaseInsensitive (a :: s) (b :: w) = false := by
  rw [eqCaseInsensitive]
  have h1 : (a == b || (65 ≤ a && a ≤ 90 && a + 32 == b)) = false := by
    simp only [Bool.or_eq_false_iff, Bool.and_eq_false_iff, beq_eq_false_iff_ne,
      ne_eq, decide_eq_false_iff_not, not_le]
    omega
  rw [h1, Bool.false_and]

theorem decBodyBytes_head_digit (c : Nat) (e : Int) :
    ∃ h t, decBodyBytes c e = h :: t ∧ 48 ≤ h ∧ h ≤ 57 := by
  obtain ⟨d0, dt, hds⟩ : ∃ d0 dt, natDigitBytes c = d0 :: dt := by
    cases h : natDigitBytes c with
    | nil => exact absurd h (natDigitBytes_ne_nil c)
    | cons d0 dt => exact ⟨d0, dt, rfl⟩
  have hd0 : 48 ≤ d0 ∧ d0 ≤ 57 :=
    isDigitByte_bounds (natDigitBytes_digits c d0 (by rw [hds]; simp))
  unfold decBodyBytes
  split
  case isTrue hplain =>
    split
    case isTrue he0 =>
      exact ⟨d0, dt, hds, hd0.1, hd0.2⟩
    case isFalse he0 =>
      split
      case isTrue hlt =>
        rw [hds] at hlt ⊢
        have hk : 1 ≤ (d0 :: dt).length - (-e).toNat := by
          simp only [List.length_cons] at hlt ⊢
          omega
        obtain ⟨m, hm⟩ : ∃ m, (d0 :: dt).length - (-e).toNat = m + 1 :=
          ⟨_, (Nat.succ_pred_eq_of_pos hk).symm⟩
        rw [hm, List.take_succ_cons, List.cons_append]
        exact ⟨d0, _, rfl, hd0.1, hd0.2⟩
      case isFalse hge =>
        exact ⟨48, _, rfl, by omega, by omega⟩
  case isFalse hsci =>
    rw [hds]
    cases dt with
    | nil => exact ⟨d0, _, rfl, hd0.1, hd0.2⟩
    | cons d1 dt2 => exact ⟨d0, _, rfl, hd0.1, hd0.2⟩

theorem parseExpPart_neg (rest : ByteStr) :
    parseExpPart (45 :: rest) = (digitsToNat rest).map (fun n => -(n : Int)) :=
  rfl

theorem parseExpPart_pos (rest : ByteStr) :
    parseExpPart (43 :: rest) = (digitsToNat rest).map (fun n => (n : Int)) :=
  rfl

theorem parseDecBody_decBodyBytes (neg : Bool) (c : Nat) (e : Int) :
    parseDecBody neg (decBodyBytes c e) = some (.finite neg c e) := by
  obtain ⟨hh, ht, hbody, hh48, hh57⟩ := decBodyBytes_head_digit c e
  have hskip1 : eqCaseInsensitive (decBodyBytes c e) [110, 97, 110] = false := by
    rw [hbody]
    exact eqCI_false_of_digit_head hh57 (by omega) _ _
  have hskip2 : eqCaseInsensitive (decBodyBytes c e) [105, 110, 102] = false := by
    rw [hbody]
    exact eqCI_false_of_digit_head hh57 (by omega) _ _
  have hskip3 : eqCaseInsensitive (decBodyBytes c e)
      [105, 110, 102, 105, 110, 105, 116, 121] = false := by
    rw [hbody]
    exact eqCI_false_of_digit_head hh57 (by omega) _ _
  have hdigits := natDigitBytes_digits c
  have hne := natDigitBytes_ne_nil c
  have hnotE : ∀ b ∈ natDigitBytes c,
      (decide (b = 69) || decide (b = 101)) = false := by
    intro b hb
    have := isDigitByte_bounds (hdigits b hb)
    simp only [Bool.or_eq_false_iff, decide_eq_false_iff_not]
    omega
  have hnot46 : ∀ b ∈ natDigitBytes c, decide (b = 46) = false := by
    intro b hb
    have := isDigitByte_bounds (hdigits b hb)
    simp only [decide_eq_false_iff_not]
    omega
  have hAll : (natDigitBytes c).all isDigitByte = true :=
    List.all_eq_true.mpr hdigits
  unfold parseDecBody
  rw [if_neg (by simp [hskip1]), if_neg (by simp [hskip2, hskip3])]
  by_cases hplain : e ≤ 0 ∧ -6 ≤ e + ((natDigitBytes c).length : Int) - 1
  · by_cases he0 : e = 0
    · subst he0
      have hbr : decBodyBytes c 0 = natDigitBytes c := by
        unfold decBodyBytes
        rw [if_pos hplain, if_pos rfl]
      rw [hbr, splitFirst_not_found hnotE]
      simp only [splitFirst_not_found hnot46, Option.getD_none, List.append_nil]
      rw [if_pos ⟨hne, hAll⟩, foldl_digits_natDigitBytes]
      norm_num
    · by_cases hlt : -e < ((natDigitBytes c).length : Int)
      · have hbr : decBodyBytes c e =
            (natDigitBytes c).take ((natDigitBytes c).length - (-e).toNat) ++
              46 :: (natDigitBytes c).drop
                ((natDigitBytes c).length - (-e).toNat) := by
          unfold decBodyBytes
          rw [if_pos hplain, if_neg he0, if_pos hlt]
        rw [hbr]
        have hEfull : ∀ b ∈ (natDigitBytes c).take
            ((natDigitBytes c).length - (-e).toNat) ++
              46 :: (natDigitBytes c).drop
                ((natDigitBytes c).length - (-e).toNat),
            (decide (b = 69) || decide (b = 101)) = false := by
          intro b hb
          rcases List.mem_append.mp hb with hb | hb
          · exact hnotE b (List.take_subset _ _ hb)
          · rcases List.mem_cons.mp hb with hb | hb
            · subst hb
              decide
            · exact hnotE b (List.drop_subset _ _ hb)
        rw [splitFirst_not_found hEfull]
        simp only [splitFirst_found _ 46 _
          (fun x hx => hnot46 x (List.take_subset _ _ hx)) (by decide),
          Option.getD_some, List.take_append_drop]
        rw [if_pos ⟨hne, hAll⟩, foldl_digits_natDigitBytes]
        congr 2
        rw [List.length_drop]
        omega
      · have hbr : decBodyBytes c e =
            48 :: 46 :: (List.replicate
              ((-e).toNat - (natDigitBytes c).length) 48 ++ natDigitBytes c) := by
          unfold decBodyBytes
          rw [if_pos hplain, if_neg he0, if_neg hlt]
        rw [hbr]
        have hEfull : ∀ b ∈ (48 :: 46 :: (List.replicate
            ((-e).toNat - (natDigitBytes c).length) 48 ++ natDigitBytes c)),
            (decide (b = 69) || decide (b = 101)) = false := by
          intro b hb
          rcases List.mem_cons.mp hb with hb | hb
          · subst hb
            decide
          · rcases List.mem_cons.mp hb with hb | hb
            · subst hb
              decide
            · rcases List.mem_append.mp hb with hb | hb
              · have := List.eq_of_mem_replicate hb
                subst this
                decide
              · exact hnotE b hb
        rw [splitFirst_not_found hEfull]
        have hsplit46 : splitFirst (fun b => decide (b = 46))
            (48 :: 46 :: (List.replicate
              ((-e).toNat - (natDigitBytes c).length) 48 ++ natDigitBytes c)) =
            ([48], some (List.replicate
              ((-e).toNat - (natDigitBytes c).length) 48 ++ natDigitBytes c)) := by
          exact splitFirst_found [48] 46 _
            (by
              intro x hx
              simp only [List.mem_singleton] at hx
              subst hx
              decide)
            (by decide)
        simp only [hsplit46, Option.getD_some]
        rw [show ([48] : ByteStr) ++ (List.replicate
            ((-e).toNat - (natDigitBytes c).length) 48 ++ natDigitBytes c) =
            List.replicate ((-e).toNat - (natDigitBytes c).length + 1) 48 ++
              natDigitBytes c from by
          rw [List.replicate_succ, List.cons_append]
          rfl]
        rw [if_pos ?side, foldl_digits_replicate_zeros, foldl_digits_natDigitBytes]
        case side =>
          constructor
          · simp [hne]
          · refine List.all_eq_true.mpr ?_
            intro b hb
            rcases List.mem_append.mp hb with hb | hb
            · have := List.eq_of_mem_replicate hb
              subst this
              decide
            · exact hdigits b hb
        congr 2
        rw [List.length_append, List.length_replicate]
        omega
  · obtain ⟨d0, dt, hds⟩ : ∃ d0 dt, natDigitBytes c = d0 :: dt := by
      cases h : natDigitBytes c with
      | nil => exact absurd h hne
      | cons d0 dt => exact ⟨d0, dt, rfl⟩
    have hsgnAdj : parseExpPart
        ((if e + ((natDigitBytes c).length : Int) - 1 < 0 then [45] else [43]) ++
          natDigitBytes (e + ((natDigitBytes c).length : Int) - 1).natAbs) =
        some (e + ((natDigitBytes c).length : Int) - 1) := by
      split
      case isTrue hneg =>
        rw [List.cons_append, List.nil_append, parseExpPart_neg,
          digitsToNat_natDigitBytes]
        show some _ = some _
        congr 1
        simp only []
        omega
      case isFalse hpos =>
        rw [List.cons_append, List.nil_append, parseExpPart_pos,
          digitsToNat_natDigitBytes]
        show some _ = some _
        congr 1
        simp only []
        omega
    have hd0digit : (decide (d0 = 69) || decide (d0 = 101)) = false :=
      hnotE d0 (by rw [hds]; simp)
    have hd0not46 : decide (d0 = 46) = false :=
      hnot46 d0 (by rw [hds]; simp)
    have hbr : decBodyBytes c e =
        (match natDigitBytes c with
         | [d] => ([d] : ByteStr)
         | d :: rest => d :: 46 :: rest
         | [] => [48]) ++
        69 :: ((if e + ((natDigitBytes c).length : Int) - 1 < 0
            then [45] else [43]) ++
          natDigitBytes (e + ((natDigitBytes c).length : Int) - 1).natAbs) := by
      unfold decBodyBytes
      rw [if_neg hplain]
      simp [List.append_assoc]
    have hmantShape : ((match natDigitBytes c with
        | [d] => ([d] : ByteStr)
        | d :: rest => d :: 46 :: rest
        | [] => [48]) = [d0] ∧ dt = []) ∨
        ((match natDigitBytes c with
        | [d] => ([d] : ByteStr)
        | d :: rest => d :: 46 :: rest
        | [] => [48]) = d0 :: 46 :: dt ∧ dt ≠ []) := by
      rw [hds]
      cases dt with
      | nil => exact Or.inl ⟨rfl, rfl⟩
      | cons d1 dt2 => exact Or.inr ⟨rfl, by simp⟩
    rcases hmantShape with ⟨hmant, hdt⟩ | ⟨hmant, hdt⟩
    · rw [hbr, hmant]
      rw [splitFirst_found [d0] 69 _
        (by
          intro x hx
          simp only [List.mem_singleton] at hx
          subst hx
          exact hd0digit)
        (by decide)]
      simp only [hsgnAdj]
      rw [splitFirst_not_found (by
        intro x hx
        simp only [List.mem_singleton] at hx
        subst hx
        exact hd0not46)]
      simp only [Option.getD_none, List.append_nil]
      rw [show (([d0] : ByteStr)) = natDigitBytes c from by rw [hds, hdt],
        if_pos ⟨hne, hAll⟩, foldl_digits_natDigitBytes]
      congr 2
      rw [hds, hdt]
      simp only [List.length_cons, List.length_nil]
      push_cast
      omega
    · rw [hbr, hmant]
      rw [splitFirst_found (d0 :: 46 :: dt) 69 _
        (by
          intro x hx
          rcases List.mem_cons.mp hx with hx | hx
          · subst hx
            exact hd0digit
          · rcases List.mem_cons.mp hx with hx | hx
            · subst hx
              decide
            · exact hnotE x (by rw [hds]; simp [hx]))
        (by decide)]
      simp only [hsgnAdj]
      rw [show (d0 :: 46 :: dt : ByteStr) = [d0] ++ 46 :: dt from rfl]
      rw [splitFirst_found [d0] 46 dt
        (by
          intro x hx
          simp only [List.mem_singleton] at hx
          subst hx
          exact hd0not46)
        (by decide)]
      simp only [Option.getD_some]
      rw [show ([d0] : ByteStr) ++ dt = natDigitBytes c from by rw [hds]; rfl,
        if_pos ⟨hne, hAll⟩, foldl_digits_natDigitBytes]
      congr 2
      rw [hds]
      simp only [List.length_cons]
      push_cast
      omega

theorem decBodyBytes_zero (n : Nat) : decBodyBytes n 0 = natDigitBytes n := by
  have hlen : 1 ≤ (natDigitBytes n).length :=
    List.length_pos.mpr (natDigitBytes_ne_nil n)
  unfold decBodyBytes
  rw [if_pos ⟨le_refl 0, by omega⟩, if_pos rfl]

theorem parseDecBytes_cons (h : Nat) (t : ByteStr) :
    parseDecBytes (h :: t) =
      if h = 45 then parseDecBody true t
      else if h = 43 then parseDecBody false t
      else parseDecBody false (h :: t) := rfl

theorem parseDecBytes_decStrBytes (d : Dec) (hnan : d ≠ .nan) :
    parseDecBytes (decStrBytes d) = some d := by
  match d with
  | .nan => exact absurd rfl hnan
  | .inf neg => cases neg <;> decide
  | .finite neg c e =>
    obtain ⟨hh, ht, hbody, hh48, hh57⟩ := decBodyBytes_head_digit c e
    cases neg with
    | true =>
      show parseDecBytes (45 :: decBodyBytes c e) = _
      rw [parseDecBytes_cons, if_pos rfl]
      exact parseDecBody_decBodyBytes true c e
    | false =>
      show parseDecBytes (decBodyBytes c e) = _
      rw [hbody, parseDecBytes_cons, if_neg (by omega), if_neg (by omega),
        ← hbody]
      exact parseDecBody_decBodyBytes false c e

theorem load_numeric_asciiOfInt (v : Int) :
    load_numeric (asciiOfInt v) =
      some (.finite (decide (v < 0)) v.natAbs 0) := by
  unfold load_numeric asciiOfInt
  split
  case isTrue hv =>
    rw [show parseDecBytes (45 :: natDigitBytes v.natAbs) =
        parseDecBody true (natDigitBytes v.natAbs) from rfl]
    rw [← decBodyBytes_zero, parseDecBody_decBodyBytes]
    simp [hv]
  case isFalse hv =>
    obtain ⟨h2, t2, hsh⟩ : ∃ h t, natDigitBytes v.toNat = h :: t := by
      cases hx : natDigitBytes v.toNat with
      | nil => exact absurd hx (natDigitBytes_ne_nil _)
      | cons a b => exact ⟨a, b, rfl⟩
    have hd2 := isDigitByte_bounds
      (natDigitBytes_digits v.toNat h2 (by rw [hsh]; simp))
    rw [hsh, parseDecBytes_cons, if_neg (by omega), if_neg (by omega), ← hsh,
      ← decBodyBytes_zero, parseDecBody_decBodyBytes]
    have htn : v.toNat = v.natAbs := by omega
    rw [htn]
    simp [hv]

theorem decEqInt_int_refl (v : Int) :
    decEqInt (.finite (decide (v < 0)) v.natAbs 0) v = true := by
  unfold decEqInt decScaled
  simp only [min_self, sub_self, Int.toNat_zero, pow_zero, mul_one,
    decide_eq_true_eq]
  rcases hb : decide (v < 0) with _ | _
  · rw [if_neg (of_decide_eq_false hb)]
    have := of_decide_eq_false hb
    omega
  · rw [if_pos (of_decide_eq_true hb)]
    have := of_decide_eq_true hb
    omega

theorem pyDecEq_refl (d : Dec) (h : d ≠ .nan) : pyDecEq d d = true := by
  match d with
  | .nan => exact absurd rfl h
  | .inf neg => simp [pyDecEq]
  | .finite neg c e => simp [pyDecEq]

/-! ## Integer binary round trip and oid choice -/

theorem packIntBE_some (w : Nat) (v : Int)
    (h : -(2 ^ (8 * w - 1) : Int) ≤ v ∧ v < 2 ^ (8 * w - 1)) :
    packIntBE w v = some (toBytesBE w (v % (2 ^ (8 * w) : Int)).toNat) := by
  unfold packIntBE
  rw [if_pos h]

theorem dump_binary_int_roundtrip (v : Int)
    (hlo : -(2 ^ 63 : Int) ≤ v) (hhi : v < 2 ^ 63) :
    ∃ b oid, dump_binary_int v = some (b, oid) ∧
      binaryLoaderFor oid b = some (.int v) := by
  unfold dump_binary_int
  by_cases h2 : -0x8000 ≤ v ∧ v ≤ 0x7FFF
  · rw [if_pos h2]
    have hp : packIntBE 2 v = some (toBytesBE 2 ((v % 2 ^ (8 * 2)).toNat)) :=
      packIntBE_some 2 v (by norm_num at h2 ⊢; omega)
    rw [hp]
    refine ⟨toBytesBE 2 ((v % 2 ^ (8 * 2) : Int)).toNat, INT2_OID, rfl, ?_⟩
    unfold binaryLoaderFor
    rw [if_pos rfl]
    have := unpackIntBE_packIntBE (w := 2) (by omega) hp
    unfold load_binary_int2
    rw [this]
    simp
  · rw [if_neg h2]
    by_cases h4 : -0x80000000 ≤ v ∧ v ≤ 0x7FFFFFFF
    · rw [if_pos h4]
      have hp : packIntBE 4 v = some (toBytesBE 4 ((v % 2 ^ (8 * 4)).toNat)) :=
        packIntBE_some 4 v (by norm_num at h4 ⊢; omega)
      rw [hp]
      refine ⟨toBytesBE 4 ((v % 2 ^ (8 * 4) : Int)).toNat, INT4_OID, rfl, ?_⟩
      unfold binaryLoaderFor
      rw [if_neg (by decide), if_pos rfl]
      have := unpackIntBE_packIntBE (w := 4) (by omega) hp
      unfold load_binary_int4
      rw [this]
      simp
    · rw [if_neg h4]
      have hp : packIntBE 8 v = some (toBytesBE 8 ((v % 2 ^ (8 * 8)).toNat)) :=
        packIntBE_some 8 v (by norm_num; omega)
      rw [hp]
      refine ⟨toBytesBE 8 ((v % 2 ^ (8 * 8) : Int)).toNat, INT8_OID, rfl, ?_⟩
      unfold binaryLoaderFor
      rw [if_neg (by decide), if_neg (by decide), if_pos rfl]
      have := unpackIntBE_packIntBE (w := 8) (by omega) hp
      unfold load_binary_int8
      rw [this]
      simp

theorem dump_binary_int_narrowest (v : Int) :
    (-32768 ≤ v ∧ v ≤ 32767 →
      ∃ b, dump_binary_int v = some (b, INT2_OID) ∧ b.length = 2) ∧
    (¬(-32768 ≤ v ∧ v ≤ 32767) ∧ -2147483648 ≤ v ∧ v ≤ 2147483647 →
      ∃ b, dump_binary_int v = some (b, INT4_OID) ∧ b.length = 4) ∧
    (¬(-2147483648 ≤ v ∧ v ≤ 2147483647) ∧
        -(2 ^ 63 : Int) ≤ v ∧ v < 2 ^ 63 →
      ∃ b, dump_binary_int v = some (b, INT8_OID) ∧ b.length = 8) ∧
    (v < -(2 ^ 63 : Int) ∨ 2 ^ 63 ≤ v → dump_binary_int v = none) := by
  refine ⟨?_, ?_, ?_, ?_⟩
  · intro h
    unfold dump_binary_int
    rw [if_pos (by omega),
      packIntBE_some 2 v (by norm_num; omega)]
    exact ⟨toBytesBE 2 ((v % 2 ^ (8 * 2) : Int)).toNat, rfl,
      toBytesBE_length 2 _⟩
  · intro h
    unfold dump_binary_int
    rw [if_neg (by omega),
      if_pos (by omega),
      packIntBE_some 4 v (by norm_num; omega)]
    exact ⟨toBytesBE 4 ((v % 2 ^ (8 * 4) : Int)).toNat, rfl,
      toBytesBE_length 4 _⟩
  · intro h
    unfold dump_binary_int
    rw [if_neg (by norm_num; omega),
      if_neg (by norm_num; omega),
      packIntBE_some 8 v (by norm_num; omega)]
    exact ⟨toBytesBE 8 ((v % 2 ^ (8 * 8) : Int)).toNat, rfl,
      toBytesBE_length 8 _⟩
  · intro h
    unfold dump_binary_int
    rw [if_neg (by norm_num; omega), if_neg (by norm_num; omega)]
    unfold packIntBE
    rw [if_neg (by norm_num; omega)]
    simp

/-! ## Composite text: escaping and scanning lemmas -/

theorem escapeQuotes_nil : escapeQuotes [] = [] := rfl

theorem escapeQuotes_cons (b : Nat) (r : ByteStr) :
    escapeQuotes (b :: r) =
      (if b = 34 then [34, 34] else [b]) ++ escapeQuotes r := by
  simp [escapeQuotes]

theorem undouble_pair (r : ByteStr) :
    undouble (34 :: 34 :: r) = 34 :: undouble r := by
  rw [undouble]
  simp

theorem undouble_cons_ne {a b : Nat} (r : ByteStr)
    (h : ¬((a = 34 ∧ b = 34) ∨ (a = 92 ∧ b = 92))) :
    undouble (a :: b :: r) = a :: undouble (b :: r) := by
  rw [undouble, if_neg h]

theorem noBackslashPair_tail {a : Nat} {t : ByteStr}
    (h : noBackslashPair (a :: t) = true) : noBackslashPair t = true := by
  cases t with
  | nil => rfl
  | cons b r =>
    rw [noBackslashPair] at h
    split at h
    · exact absurd h (by simp)
    · exact h

theorem undouble_escapeQuotes (ad : ByteStr)
    (h : noBackslashPair ad = true) :
    undouble (escapeQuotes ad) = ad := by
  induction ad with
  | nil => rfl
  | cons a t ih =>
    have ht := noBackslashPair_tail h
    rw [escapeQuotes_cons]
    by_cases ha : a = 34
    · subst ha
      rw [if_pos rfl]
      show undouble (34 :: 34 :: escapeQuotes t) = 34 :: t
      rw [undouble_pair, ih ht]
    · rw [if_neg ha, List.singleton_append]
      cases t with
      | nil =>
        rw [escapeQuotes_nil]
        rfl
      | cons b r =>
        have hb92 : ¬(a = 92 ∧ b = 92) := by
          rw [noBackslashPair] at h
          split at h
          · exact absurd h (by simp)
          case isFalse hc => exact hc
        have hane : ¬((a = 34 ∧ (if b = 34 then 34 else b) = 34) ∨
            (a = 92 ∧ (if b = 34 then 34 else b) = 92)) := by
          intro hcontra
          rcases hcontra with ⟨h1, _⟩ | ⟨h1, h2⟩
          · exact ha h1
          · by_cases hb : b = 34
            · rw [if_pos hb] at h2
              omega
            · rw [if_neg hb] at h2
              exact hb92 ⟨h1, h2⟩
        have hshape : escapeQuotes (b :: r) =
            (if b = 34 then 34 else b) ::
              (if b = 34 then 34 :: escapeQuotes r else escapeQuotes r) := by
          by_cases hb : b = 34
          · subst hb
            rw [escapeQuotes_cons, if_pos rfl, if_pos rfl, if_pos rfl]
            rfl
          · rw [escapeQuotes_cons, if_neg hb, if_neg hb, if_neg hb]
            rfl
        rw [hshape, undouble_cons_ne _ hane, ← hshape, ih ht]

theorem qscan_escaped (ad : ByteStr) {x : Nat} (hx : x ≠ 34) (r : ByteStr) :
    qscan (escapeQuotes ad ++ 34 :: x :: r) = (escapeQuotes ad, 34 :: x :: r) := by
  induction ad with
  | nil =>
    rw [escapeQuotes_nil, List.nil_append, qscan, if_pos rfl, if_neg hx]
  | cons a t ih =>
    rw [escapeQuotes_cons]
    by_cases ha : a = 34
    · subst ha
      rw [if_pos rfl]
      show qscan (34 :: 34 :: (escapeQuotes t ++ 34 :: x :: r)) = _
      rw [qscan, if_pos rfl, if_pos rfl, ih]
      rfl
    · rw [if_neg ha, List.singleton_append, List.cons_append]
      obtain ⟨y, rest, hyr⟩ :
          ∃ y rest, escapeQuotes t ++ 34 :: x :: r = y :: rest := by
        cases hq : escapeQuotes t with
        | nil => exact ⟨34, x :: r, by simp [hq]⟩
        | cons u us => exact ⟨u, us ++ 34 :: x :: r, by simp [hq]⟩
      rw [hyr] at ih ⊢
      rw [qscan, if_neg ha, ih]

theorem uscan_run (ad : ByteStr)
    (had : ∀ x ∈ ad, (decide (x = 34) || decide (x = 44) || decide (x = 41)) = false)
    {s : Nat}
    (hs : (decide (s = 34) || decide (s = 44) || decide (s = 41)) = true)
    (r : ByteStr) :
    uscan (ad ++ s :: r) = (ad, s :: r) := by
  induction ad with
  | nil => rw [List.nil_append, uscan, if_pos hs]
  | cons a t ih =>
    rw [List.cons_append, uscan, if_neg (by simp [had a (by simp)]),
      ih (fun x hx => had x (by simp [hx]))]

/-! ## Composite text: one token of the record tokenizer -/

theorem matchAt_eq_of_alt1 {s : ByteStr} {v : Option ByteStr × ByteStr}
    (h : matchAlt1 s = some v) : matchAt s = some v := by
  rw [matchAt, h]

theorem matchAt_eq_of_alt2 {s : ByteStr} {v : Option ByteStr × ByteStr}
    (h1 : matchAlt1 s = none) (h2 : matchAlt2 s = some v) :
    matchAt s = some v := by
  rw [matchAt, h1, h2]

theorem matchAt_eq_alt3 {s : ByteStr}
    (h1 : matchAlt1 s = none) (h2 : matchAlt2 s = none) :
    matchAt s = matchAlt3 s := by
  rw [matchAt, h1, h2]

theorem needsQuotes_false_facts {ad : ByteStr} (h : needsQuotes ad = false) :
    ad ≠ [] ∧ ∀ x ∈ ad, ¬x = 34 ∧ ¬x = 44 ∧ ¬x = 92 ∧ isSpaceByte x = false := by
  unfold needsQuotes at h
  simp only [Bool.or_eq_false_iff, List.any_eq_false] at h
  obtain ⟨h1, h2⟩ := h
  refine ⟨by simpa using h1, ?_⟩
  intro x hx
  have hfacts := h2 x hx
  simp only [Bool.or_eq_true, not_or, decide_eq_true_eq] at hfacts
  exact ⟨hfacts.1.1.1, hfacts.1.1.2, hfacts.1.2, by simpa using hfacts.2⟩

theorem isSep_ne_40 {s : Nat} (hs : isSep s = true) : s ≠ 40 := by
  simp [isSep] at hs
  omega

theorem isSep_ne_34 {s : Nat} (hs : isSep s = true) : s ≠ 34 := by
  simp [isSep] at hs
  omega

theorem matchAt_sep {s : Nat} (hs : isSep s = true) (r : ByteStr) :
    matchAt (s :: r) = some (none, r) :=
  matchAt_eq_of_alt1
    (by
      simp only [matchAlt1.eq_def]
      rw [if_neg (isSep_ne_40 hs), if_pos hs])

theorem matchAt_lparen_sep {s : Nat} (hs : isSep s = true) (r : ByteStr) :
    matchAt (40 :: s :: r) = some (none, r) := by
  apply matchAt_eq_of_alt1
  simp only [matchAlt1.eq_def]
  rw [if_pos trivial]
  show (if isSep s = true then some (none, r) else none) = _
  rw [if_pos hs]

theorem matchQuotedCore_quoted (ad : ByteStr) (hbs : noBackslashPair ad = true)
    {s : Nat} (hs : isSep s = true) (r : ByteStr) :
    matchQuotedCore (34 :: (escapeQuotes ad ++ 34 :: s :: r)) =
      some (some ad, r) := by
  rw [matchQuotedCore, if_pos rfl, qscan_escaped ad (isSep_ne_34 hs) r]
  show (if (34 : Nat) = 34 ∧ isSep s = true then
      some (some (undouble (escapeQuotes ad)), r) else none) = _
  rw [if_pos ⟨rfl, hs⟩, undouble_escapeQuotes ad hbs]

theorem dumpTextField_quoted {ad : ByteStr} (hq : needsQuotes ad = true) :
    dumpTextField ad = 34 :: (escapeQuotes ad ++ [34]) := by
  rw [dumpTextField, if_pos hq]

theorem quoted_append {ad : ByteStr} (hq : needsQuotes ad = true)
    (s : Nat) (r : ByteStr) :
    dumpTextField ad ++ s :: r = 34 :: (escapeQuotes ad ++ 34 :: s :: r) := by
  rw [dumpTextField_quoted hq]
  simp

theorem matchAt_quoted (ad : ByteStr) (hq : needsQuotes ad = true)
    (hbs : noBackslashPair ad = true) {s : Nat} (hs : isSep s = true)
    (r : ByteStr) :
    matchAt (dumpTextField ad ++ s :: r) = some (some ad, r) := by
  rw [quoted_append hq]
  apply matchAt_eq_of_alt2
  · simp only [matchAlt1.eq_def]
    rw [if_neg (by omega), if_neg (by simp [isSep])]
  · rw [matchAlt2, if_neg (by
      intro hcontra
      rw [List.take_succ_cons] at hcontra
      simp at hcontra)]
    exact matchQuotedCore_quoted ad hbs hs r

theorem matchAt_lparen_quoted (ad : ByteStr) (hq : needsQuotes ad = true)
    (hbs : noBackslashPair ad = true) {s : Nat} (hs : isSep s = true)
    (r : ByteStr) :
    matchAt (40 :: (dumpTextField ad ++ s :: r)) = some (some ad, r) := by
  rw [quoted_append hq]
  apply matchAt_eq_of_alt2
  · simp only [matchAlt1.eq_def]
    rw [if_pos trivial]
    show (if isSep 34 = true then
        some ((none : Option ByteStr), escapeQuotes ad ++ 34 :: s :: r)
      else none) = none
    rw [if_neg (by simp [isSep])]
  · rw [matchAlt2, if_pos (by
      rw [List.take_succ_cons, List.take_succ_cons, List.take_zero])]
    exact matchQuotedCore_quoted ad hbs hs r

theorem matchBareCore_bare (ad : ByteStr) (hq : needsQuotes ad = false)
    (h41 : ¬41 ∈ ad) {s : Nat} (hs : isSep s = true) (r : ByteStr) :
    matchBareCore (ad ++ s :: r) = some (some ad, r) := by
  obtain ⟨hne, hfacts⟩ := needsQuotes_false_facts hq
  have hmem : ∀ x ∈ ad,
      (decide (x = 34) || decide (x = 44) || decide (x = 41)) = false := by
    intro x hx
    have hf := hfacts x hx
    have hx41 : ¬x = 41 := fun he => h41 (he ▸ hx)
    simp [hf.1, hf.2.1, hx41]
  have hsep : (decide (s = 34) || decide (s = 44) || decide (s = 41)) = true := by
    simp [isSep] at hs
    rcases hs with h | h <;> simp [h]
  unfold matchBareCore
  rw [uscan_run ad hmem hsep r]
  simp [hne, hs]

theorem matchAt_bare (ad : ByteStr) (hq : needsQuotes ad = false)
    (h41 : ¬41 ∈ ad) (h40 : ad.head? ≠ some 40) {s : Nat}
    (hs : isSep s = true) (r : ByteStr) :
    matchAt (ad ++ s :: r) = some (some ad, r) := by
  obtain ⟨hne, hfacts⟩ := needsQuotes_false_facts hq
  obtain ⟨u, t, rfl⟩ : ∃ u t, ad = u :: t := by
    cases ad with
    | nil => exact absurd rfl hne
    | cons u t => exact ⟨u, t, rfl⟩
  have hu := hfacts u (by simp)
  have hu41 : ¬u = 41 := fun he => h41 (by simp [he])
  have hu40 : ¬u = 40 := by
    intro he
    exact h40 (by simp [he])
  rw [List.cons_append]
  rw [matchAt_eq_alt3 ?alt1 ?alt2]
  case alt1 =>
    simp only [matchAlt1.eq_def]
    rw [if_neg hu40, if_neg (by simp [isSep, hu.2.1, hu41])]
  case alt2 =>
    rw [matchAlt2, if_neg (by
      intro hcontra
      rw [List.take_succ_cons] at hcontra
      simp at hcontra
      omega)]
    rw [matchQuotedCore, if_neg hu.1]
  rw [matchAlt3, if_neg (by simp [hu40])]
  rw [← List.cons_append]
  exact matchBareCore_bare (u :: t) hq h41 hs r

theorem matchAt_lparen_bare (ad : ByteStr) (hq : needsQuotes ad = false)
    (h41 : ¬41 ∈ ad) (h40 : ad.head? ≠ some 40) {s : Nat}
    (hs : isSep s = true) (r : ByteStr) :
    matchAt (40 :: (ad ++ s :: r)) = some (some ad, r) := by
  obtain ⟨hne, hfacts⟩ := needsQuotes_false_facts hq
  obtain ⟨u, t, huad⟩ : ∃ u t, ad = u :: t := by
    cases ad with
    | nil => exact absurd rfl hne
    | cons u t => exact ⟨u, t, rfl⟩
  have hu := hfacts u (by simp [huad])
  have hu41 : ¬u = 41 := fun he => h41 (by simp [huad, he])
  have hu40 : ¬u = 40 := by
    intro he
    apply h40
    rw [huad, he]
    rfl
  have hrw : (40 : Nat) :: (ad ++ s :: r) = 40 :: u :: (t ++ s :: r) := by
    rw [huad, List.cons_append]
  rw [hrw, matchAt_eq_alt3 ?alt1 ?alt2]
  case alt1 =>
    simp only [matchAlt1.eq_def]
    rw [if_pos trivial]
    show (if isSep u = true then some ((none : Option ByteStr), t ++ s :: r)
      else none) = none
    rw [if_neg (by simp [isSep, hu.2.1, hu41])]
  case alt2 =>
    rw [matchAlt2, if_neg (by
      intro hcontra
      rw [List.take_succ_cons, List.take_succ_cons] at hcontra
      simp at hcontra
      exact hu.1 hcontra)]
    rw [matchQuotedCore, if_neg (by omega)]
  rw [matchAlt3,
    if_pos (show (40 :: u :: (t ++ s :: r) : ByteStr).head? = some 40 from rfl)]
  show (match matchBareCore (u :: (t ++ s :: r)) with
    | some x => some x
    | none => matchBareCore (40 :: u :: (t ++ s :: r))) = some (some ad, r)
  rw [← List.cons_append, ← huad, matchBareCore_bare ad hq h41 hs r]

/-! ## Composite text: dump shape and full tokenization -/

theorem textFieldOk_parts {ad : ByteStr} (h : textFieldOk ad = true) :
    noBackslashPair ad = true ∧
      (needsQuotes ad = false → ¬41 ∈ ad ∧ ad.head? ≠ some 40) := by
  unfold textFieldOk at h
  rw [Bool.and_eq_true] at h
  obtain ⟨h1, h2⟩ := h
  refine ⟨h1, ?_⟩
  intro hnq
  rw [hnq, Bool.false_or, Bool.and_eq_true] at h2
  obtain ⟨hc, hh⟩ := h2
  constructor
  · intro hmem
    simp at hc
    exact hc hmem
  · simpa using hh

theorem matchAt_field (item : Option ByteStr)
    (hok : ∀ ad, item = some ad → textFieldOk ad = true)
    {s : Nat} (hs : isSep s = true) (r : ByteStr) :
    matchAt (fieldBytes item ++ s :: r) = some (item, r) := by
  match item with
  | none =>
    show matchAt ([] ++ s :: r) = _
    rw [List.nil_append]
    exact matchAt_sep hs r
  | some ad =>
    obtain ⟨hbs, hbare⟩ := textFieldOk_parts (hok ad rfl)
    cases hq : needsQuotes ad with
    | true => exact matchAt_quoted ad hq hbs hs r
    | false =>
      obtain ⟨h41, h40⟩ := hbare hq
      have hfb : fieldBytes (some ad) = ad := by
        show dumpTextField ad = ad
        rw [dumpTextField, if_neg (by simp [hq])]
      rw [hfb]
      exact matchAt_bare ad hq h41 h40 hs r

theorem matchAt_lparen_field (item : Option ByteStr)
    (hok : ∀ ad, item = some ad → textFieldOk ad = true)
    {s : Nat} (hs : isSep s = true) (r : ByteStr) :
    matchAt (40 :: (fieldBytes item ++ s :: r)) = some (item, r) := by
  match item with
  | none =>
    show matchAt (40 :: ([] ++ s :: r)) = _
    rw [List.nil_append]
    exact matchAt_lparen_sep hs r
  | some ad =>
    obtain ⟨hbs, hbare⟩ := textFieldOk_parts (hok ad rfl)
    cases hq : needsQuotes ad with
    | true => exact matchAt_lparen_quoted ad hq hbs hs r
    | false =>
      obtain ⟨h41, h40⟩ := hbare hq
      have hfb : fieldBytes (some ad) = ad := by
        show dumpTextField ad = ad
        rw [dumpTextField, if_neg (by simp [hq])]
      rw [hfb]
      exact matchAt_lparen_bare ad hq h41 h40 hs r

theorem partsOf_flatten (i : Option ByteStr) :
    (textParts i).flatten = fieldBytes i ++ [44] := by
  match i with
  | none => rfl
  | some ad => simp [textParts, fieldBytes]

theorem mapParts_ne_nil (obj : List (Option ByteStr)) (h : obj ≠ []) :
    ∃ y ys, (obj.map textParts).flatten = y :: ys := by
  match obj with
  | [] => exact absurd rfl h
  | i :: rest =>
    match i with
    | none => exact ⟨[44], _, rfl⟩
    | some ad => exact ⟨dumpTextField ad, _, rfl⟩

theorem dropLast_flatten_encodeTail (obj : List (Option ByteStr))
    (h : obj ≠ []) :
    (((obj.map textParts).flatten).dropLast).flatten ++ [41] =
      encodeTail obj := by
  induction obj with
  | nil => exact absurd rfl h
  | cons i rest ih =>
    by_cases hr : rest = []
    · subst hr
      have he : encodeTail [i] = fieldBytes i ++ [41] := by
        rw [encodeTail]
        rfl
      rw [he]
      match i with
      | none =>
        show (([[44]] : List ByteStr).dropLast).flatten ++ [41] = _
        rfl
      | some ad =>
        show (([dumpTextField ad, [44]] : List ByteStr).dropLast).flatten ++
          [41] = _
        simp [List.dropLast_cons₂, List.dropLast_single, fieldBytes]
    · obtain ⟨y, ys, hbody⟩ := mapParts_ne_nil rest hr
      have he : encodeTail (i :: rest) = fieldBytes i ++ 44 :: encodeTail rest := by
        rw [encodeTail, if_neg (by simpa using hr)]
      rw [he, List.map_cons, List.flatten_cons, hbody,
        List.dropLast_append_cons, List.flatten_append, ← hbody]
      rw [partsOf_flatten i]
      rw [List.append_assoc, List.append_assoc]
      congr 1
      rw [List.singleton_append]
      congr 1
      exact ih hr

theorem TextTupleDumper_dump_eq (obj : List (Option ByteStr)) (h : obj ≠ []) :
    TextTupleDumper_dump obj = (40 :: encodeTail obj, TEXT_OID) := by
  unfold TextTupleDumper_dump
  rw [if_neg h]
  obtain ⟨y, ys, hbody⟩ := mapParts_ne_nil obj h
  congr 1
  rw [hbody, List.dropLast_cons₂, ← hbody, List.cons_append,
    List.flatten_cons, List.flatten_append,
    show ([[41]] : List ByteStr).flatten = [41] from rfl,
    List.singleton_append]
  congr 1
  exact dropLast_flatten_encodeTail obj h

theorem tokenizeAux_nil (fuel : Nat) : tokenizeAux fuel [] = [] := by
  cases fuel <;> rfl

theorem dumpTextField_ne_nil (ad : ByteStr) : dumpTextField ad ≠ [] := by
  unfold dumpTextField
  split
  · simp
  case isFalse hq =>
    exact (needsQuotes_false_facts (by simpa using hq)).1

theorem encodeTail_nil_eq (i : Option ByteStr) :
    encodeTail [i] = fieldBytes i ++ 41 :: ([] : ByteStr) := by
  rw [encodeTail]
  rfl

theorem encodeTail_cons_eq (i : Option ByteStr) {rest : List (Option ByteStr)}
    (hr : rest ≠ []) :
    encodeTail (i :: rest) = fieldBytes i ++ 44 :: encodeTail rest := by
  rw [encodeTail, if_neg (by simpa using hr)]

theorem encodeTail_length_pos (items : List (Option ByteStr))
    (h : items ≠ []) : 1 ≤ (encodeTail items).length := by
  match items with
  | [] => exact absurd rfl h
  | i :: rest =>
    by_cases hr : rest = []
    · subst hr
      rw [encodeTail_nil_eq]
      simp
    · rw [encodeTail_cons_eq i hr]
      simp only [List.length_append, List.length_cons]
      omega

theorem fieldBytes_sep_cons (i : Option ByteStr) (s : Nat) (r : ByteStr) :
    ∃ y ys, fieldBytes i ++ s :: r = y :: ys := by
  cases hf : fieldBytes i with
  | nil => exact ⟨s, r, by simp [hf]⟩
  | cons y t => exact ⟨y, t ++ s :: r, by simp [hf]⟩

theorem tokenizeAux_encodeTail (items : List (Option ByteStr))
    (hok : ∀ ad, some ad ∈ items → textFieldOk ad = true) :
    items ≠ [] →
    ∀ fuel, (encodeTail items).length ≤ fuel →
      tokenizeAux fuel (encodeTail items) = items := by
  induction items with
  | nil =>
    intro h
    exact absurd rfl h
  | cons i rest ih =>
    intro _ fuel hfuel
    have hoki : ∀ ad, i = some ad → textFieldOk ad = true := by
      intro ad ha
      exact hok ad (by rw [← ha]; exact List.mem_cons_self _ _)
    by_cases hr : rest = []
    · subst hr
      rw [encodeTail_nil_eq] at hfuel ⊢
      obtain ⟨y, ys, hys⟩ := fieldBytes_sep_cons i 41 []
      have hlen : 1 ≤ fuel := by
        rw [hys] at hfuel
        simp at hfuel
        omega
      obtain ⟨fuel2, rfl⟩ : ∃ f2, fuel = f2 + 1 := ⟨fuel - 1, by omega⟩
      rw [hys, tokenizeAux, ← hys,
        matchAt_field i hoki (by decide) ([] : ByteStr)]
      show i :: tokenizeAux fuel2 [] = [i]
      rw [tokenizeAux_nil]
    · rw [encodeTail_cons_eq i hr] at hfuel ⊢
      obtain ⟨y, ys, hys⟩ := fieldBytes_sep_cons i 44 (encodeTail rest)
      have hlen : 1 ≤ fuel := by
        rw [hys] at hfuel
        simp at hfuel
        omega
      obtain ⟨fuel2, rfl⟩ : ∃ f2, fuel = f2 + 1 := ⟨fuel - 1, by omega⟩
      rw [hys, tokenizeAux, ← hys,
        matchAt_field i hoki (by decide) (encodeTail rest)]
      show i :: tokenizeAux fuel2 (encodeTail rest) = i :: rest
      congr 1
      refine ih (fun ad ha => hok ad (by simp [ha])) hr fuel2 ?_
      rw [List.length_append, List.length_cons] at hfuel
      omega

theorem tokenize_record (c : List (Option ByteStr)) (hc : c ≠ [])
    (hok : ∀ ad, some ad ∈ c → textFieldOk ad = true) :
    ∀ fuel, (encodeTail c).length + 1 ≤ fuel →
      tokenizeAux fuel (40 :: encodeTail c) = c := by
  obtain ⟨i, rest, rfl⟩ : ∃ i rest, c = i :: rest := by
    cases c with
    | nil => exact absurd rfl hc
    | cons i rest => exact ⟨i, rest, rfl⟩
  intro fuel hfuel
  have hoki : ∀ ad, i = some ad → textFieldOk ad = true := by
    intro ad ha
    exact hok ad (by rw [← ha]; exact List.mem_cons_self _ _)
  by_cases hr : rest = []
  · subst hr
    rw [encodeTail_nil_eq] at hfuel ⊢
    obtain ⟨fuel2, rfl⟩ : ∃ f2, fuel = f2 + 1 := ⟨fuel - 1, by omega⟩
    rw [tokenizeAux, matchAt_lparen_field i hoki (by decide) ([] : ByteStr)]
    show i :: tokenizeAux fuel2 [] = [i]
    rw [tokenizeAux_nil]
  · rw [encodeTail_cons_eq i hr] at hfuel ⊢
    obtain ⟨fuel2, rfl⟩ : ∃ f2, fuel = f2 + 1 := ⟨fuel - 1, by omega⟩
    rw [tokenizeAux, matchAt_lparen_field i hoki (by decide) (encodeTail rest)]
    show i :: tokenizeAux fuel2 (encodeTail rest) = i :: rest
    congr 1
    refine tokenizeAux_encodeTail rest (fun ad ha => hok ad (by simp [ha]))
      hr fuel2 ?_
    rw [List.length_append, List.length_cons] at hfuel
    omega

theorem encodeTail_ne_closer {c : List (Option ByteStr)} (hc : c ≠ [])
    (h1 : c ≠ [none]) : encodeTail c ≠ [41] := by
  obtain ⟨i, rest, rfl⟩ : ∃ i rest, c = i :: rest := by
    cases c with
    | nil => exact absurd rfl hc
    | cons i rest => exact ⟨i, rest, rfl⟩
  by_cases hr : rest = []
  · subst hr
    rw [encodeTail_nil_eq]
    intro hcontra
    match i with
    | none => exact h1 rfl
    | some ad =>
      have hl := congrArg List.length hcontra
      rw [List.length_append, List.length_cons] at hl
      simp at hl
      exact dumpTextField_ne_nil ad hl
  · rw [encodeTail_cons_eq i hr]
    intro hcontra
    have h2 := encodeTail_length_pos rest hr
    have : (fieldBytes i ++ 44 :: encodeTail rest).length = 1 := by
      rw [hcontra]
      rfl
    rw [List.length_append, List.length_cons] at this
    omega

theorem RecordLoader_TextTupleDumper (c : List (Option ByteStr))
    (h1 : c ≠ [none])
    (hok : ∀ ad, some ad ∈ c → textFieldOk ad = true) :
    RecordLoader_load (TextTupleDumper_dump c).1 = c := by
  by_cases hc : c = []
  · subst hc
    rfl
  · rw [TextTupleDumper_dump_eq c hc]
    show RecordLoader_load (40 :: encodeTail c) = c
    unfold RecordLoader_load parseRecord
    rw [if_neg (by
      intro hcontra
      have h2 : encodeTail c = [41] := by
        have := congrArg List.tail hcontra
        simpa using this
      exact encodeTail_ne_closer hc h1 h2)]
    rw [show ((40 : Nat) :: encodeTail c).length = (encodeTail c).length + 1
      from by simp]
    rw [tokenize_record c hc hok ((encodeTail c).length + 1) le_rfl]
    rw [show text_loader = fun d => d from rfl]
    simp

/-! ## Composite binary: field encoding and record walk -/

theorem dump_binary_int_inv {v : Int} {b : ByteStr} {oid : Nat}
    (hd : dump_binary_int v = some (b, oid)) :
    binaryLoaderFor oid b = some (.int v) ∧ oid < 2 ^ 32 ∧
      (b.length = 2 ∨ b.length = 4 ∨ b.length = 8) := by
  unfold dump_binary_int at hd
  split at hd
  case isTrue h2 =>
    rcases hp : packIntBE 2 v with _ | b2 <;> rw [hp] at hd
    · exact absurd hd (by simp)
    · simp at hd
      obtain ⟨hb, hoid⟩ := hd
      subst hb
      subst hoid
      have hlen : b2.length = 2 := by
        unfold packIntBE at hp
        split at hp
        · injection hp with hp2
          rw [← hp2, toBytesBE_length]
        · exact absurd hp (by simp)
      refine ⟨?_, by decide, Or.inl hlen⟩
      unfold binaryLoaderFor
      rw [if_pos rfl]
      unfold load_binary_int2
      rw [unpackIntBE_packIntBE (by omega) hp]
      rfl
  case isFalse h2 =>
    split at hd
    case isTrue h4 =>
      rcases hp : packIntBE 4 v with _ | b4 <;> rw [hp] at hd
      · exact absurd hd (by simp)
      · simp at hd
        obtain ⟨hb, hoid⟩ := hd
        subst hb
        subst hoid
        have hlen : b4.length = 4 := by
          unfold packIntBE at hp
          split at hp
          · injection hp with hp2
            rw [← hp2, toBytesBE_length]
          · exact absurd hp (by simp)
        refine ⟨?_, by decide, Or.inr (Or.inl hlen)⟩
        unfold binaryLoaderFor
        rw [if_neg (by decide), if_pos rfl]
        unfold load_binary_int4
        rw [unpackIntBE_packIntBE (by omega) hp]
        rfl
    case isFalse h4 =>
      rcases hp : packIntBE 8 v with _ | b8 <;> rw [hp] at hd
      · exact absurd hd (by simp)
      · simp at hd
        obtain ⟨hb, hoid⟩ := hd
        subst hb
        subst hoid
        have hlen : b8.length = 8 := by
          unfold packIntBE at hp
          split at hp
          · injection hp with hp2
            rw [← hp2, toBytesBE_length]
          · exact absurd hp (by simp)
        refine ⟨?_, by decide, Or.inr (Or.inr hlen)⟩
        unfold binaryLoaderFor
        rw [if_neg (by decide), if_neg (by decide), if_pos rfl]
        unfold load_binary_int8
        rw [unpackIntBE_packIntBE (by omega) hp]
        rfl

theorem binFieldParts_some (ad : ByteStr) (oidv : Nat) :
    binFieldParts (some ad, oidv) =
      (packIntBE 4 (ad.length : Int)).map (fun lb => toBytesBE 4 oidv ++ lb ++ ad) :=
  rfl

theorem encodeBinField_spec (it : Option PyVal) (fb : ByteStr)
    (he : encodeBinField it = some fb) (hfl : floatBitsOk it = true) :
    ∃ oid lb payload,
      fb = toBytesBE 4 oid ++ lb ++ payload ∧ oid < 2 ^ 32 ∧ lb.length = 4 ∧
      payload.length < 2 ^ 31 ∧
      ((unpackIntBE 4 lb = some (-1) ∧ payload = [] ∧ it = none) ∨
       (unpackIntBE 4 lb = some (payload.length : Int) ∧
         ∃ val, it = some val ∧ binaryLoaderFor oid payload = some val)) := by
  match it with
  | none =>
    refine ⟨TEXT_OID, [255, 255, 255, 255], [], ?_, by decide, rfl, by decide,
      Or.inl ⟨by decide, rfl, rfl⟩⟩
    have h0 : encodeBinField none =
        some (toBytesBE 4 TEXT_OID ++ [255, 255, 255, 255]) := by decide
    rw [h0] at he
    injection he with he
    rw [← he, List.append_nil]
  | some (.int v) =>
    simp only [encodeBinField, txDumpBinary] at he
    rw [Option.bind_eq_some] at he
    obtain ⟨a, ha, hfa⟩ := he
    rw [Option.map_eq_some'] at ha
    obtain ⟨pr, hd, hpa⟩ := ha
    rcases pr with ⟨b, boid⟩
    subst hpa
    simp only [] at hfa
    obtain ⟨hload, hoid, hlen⟩ := dump_binary_int_inv hd
    rw [binFieldParts_some] at hfa
    rcases hlen with h | h | h <;> rw [h] at hfa
    · have hp : packIntBE 4 ((2 : Nat) : Int) = some [0, 0, 0, 2] := by decide
      rw [hp, Option.map_some'] at hfa
      injection hfa with hfa
      refine ⟨boid, [0, 0, 0, 2], b, hfa.symm, hoid, rfl, by rw [h]; decide,
        Or.inr ⟨by rw [h]; decide, .int v, rfl, hload⟩⟩
    · have hp : packIntBE 4 ((4 : Nat) : Int) = some [0, 0, 0, 4] := by decide
      rw [hp, Option.map_some'] at hfa
      injection hfa with hfa
      refine ⟨boid, [0, 0, 0, 4], b, hfa.symm, hoid, rfl, by rw [h]; decide,
        Or.inr ⟨by rw [h]; decide, .int v, rfl, hload⟩⟩
    · have hp : packIntBE 4 ((8 : Nat) : Int) = some [0, 0, 0, 8] := by decide
      rw [hp, Option.map_some'] at hfa
      injection hfa with hfa
      refine ⟨boid, [0, 0, 0, 8], b, hfa.symm, hoid, rfl, by rw [h]; decide,
        Or.inr ⟨by rw [h]; decide, .int v, rfl, hload⟩⟩
  | some (.bool bv) =>
    refine ⟨BOOL_OID, [0, 0, 0, 1], (dump_binary_bool bv).1, ?_, by decide,
      rfl, by cases bv <;> decide,
      Or.inr ⟨by cases bv <;> decide, .bool bv, rfl, by cases bv <;> decide⟩⟩
    cases bv <;> (injection he with he; rw [← he]) <;> decide
  | some (.float bits) =>
    simp only [encodeBinField, txDumpBinary] at he
    rw [Option.bind_eq_some] at he
    obtain ⟨a, ha, hfa⟩ := he
    injection ha with ha
    subst ha
    rw [binFieldParts_some] at hfa
    have hplen : (dump_binary_float bits).1.length = 8 := toBytesBE_length 8 bits
    rw [hplen] at hfa
    have hp : packIntBE 4 ((8 : Nat) : Int) = some [0, 0, 0, 8] := by decide
    rw [hp, Option.map_some'] at hfa
    injection hfa with hfa
    have hbits : bits < 2 ^ 64 := by
      unfold floatBitsOk at hfl
      simpa using hfl
    refine ⟨FLOAT8_OID, [0, 0, 0, 8], (dump_binary_float bits).1,
      hfa.symm, by decide, rfl, by rw [hplen]; decide,
      Or.inr ⟨by rw [hplen]; decide, .float bits, rfl, ?_⟩⟩
    unfold binaryLoaderFor
    rw [if_neg (by decide), if_neg (by decide), if_neg (by decide),
      if_neg (by decide), if_neg (by decide), if_pos rfl]
    unfold load_binary_float8
    rw [if_pos hplen]
    show some (PyVal.float (fromBytesBE (toBytesBE 8 bits))) = _
    rw [fromBytesBE_toBytesBE]
    have h2 : (256 : Nat) ^ 8 = 2 ^ 64 := by norm_num
    rw [h2, Nat.mod_eq_of_lt hbits]
  | some (.dec d) => exact absurd he (by simp [encodeBinField, txDumpBinary])

theorem drop_append_len (p y : ByteStr) (k : Nat) :
    (p ++ y).drop (p.length + k) = y.drop k := by
  induction p with
  | nil => simp
  | cons a p ih => simp [Nat.succ_add, ih]

theorem take_left_of_len (p y : ByteStr) (k : Nat) (h : p.length = k) :
    (p ++ y).take k = p := by
  rw [← h]
  exact List.take_left p y

theorem drop_left_of_len (p y : ByteStr) (k : Nat) (h : p.length = k) :
    (p ++ y).drop k = y := by
  rw [← h]
  exact List.drop_left p y

theorem walkRecordAux_succ (k : Nat) (data : ByteStr) (i : Nat) :
    walkRecordAux (k + 1) data i =
      (unpackUintBE 4 ((data.drop i).take 4)).bind fun oid =>
      (unpackIntBE 4 ((data.drop (i + 4)).take 4)).bind fun len =>
      (walkRecordAux k data (if 0 < len then i + 8 + len.toNat else i + 8)).map
        (fun rest => (oid, i + 8, len) :: rest) := rfl

theorem loadBinField_mk (data : ByteStr) (o i : Nat) (n : Int) :
    loadBinField data (o, i, n) =
      if n = -1 then some none
      else (binaryLoaderFor o ((data.drop i).take n.toNat)).map some := rfl

theorem walkRecordAux_spec (fields : List (Option PyVal)) :
    ∀ (fbs : List ByteStr) (p data : ByteStr),
      encodeFields fields = some fbs →
      (∀ it ∈ fields, floatBitsOk it = true) →
      data = p ++ fbs.flatten →
      ∃ triples,
        walkRecordAux fields.length data p.length = some triples ∧
        loadBinFields data triples = some fields := by
  induction fields with
  | nil =>
    intro fbs p data hm _ _
    injection hm with hm
    exact ⟨[], rfl, rfl⟩
  | cons it rest ih =>
    intro fbs p data hm hfl hdata
    simp only [encodeFields] at hm
    rw [Option.bind_eq_some] at hm
    obtain ⟨fb, he, hm2⟩ := hm
    rw [Option.map_eq_some'] at hm2
    obtain ⟨fbs', hm', hcons⟩ := hm2
    subst hcons
    obtain ⟨oid, lb, payload, hshape, hoid, hlb4, hplt, hcase⟩ :=
      encodeBinField_spec it fb he (hfl it (List.mem_cons_self it rest))
    have ho4len : (toBytesBE 4 oid).length = 4 := toBytesBE_length 4 oid
    have hfblen : fb.length = 8 + payload.length := by
      rw [hshape]
      simp [List.length_append, ho4len, hlb4]
      omega
    have hdata' : data = (p ++ fb) ++ fbs'.flatten := by
      rw [hdata, show (fb :: fbs').flatten = fb ++ fbs'.flatten from rfl,
        List.append_assoc]
    have hdropP : data.drop p.length = fb ++ fbs'.flatten := by
      rw [hdata, show (fb :: fbs').flatten = fb ++ fbs'.flatten from rfl]
      exact List.drop_left p _
    have htake4 : (data.drop p.length).take 4 = toBytesBE 4 oid := by
      rw [hdropP, hshape, List.append_assoc, List.append_assoc]
      exact take_left_of_len _ _ 4 ho4len
    have hoid_step : unpackUintBE 4 ((data.drop p.length).take 4) = some oid := by
      rw [htake4]
      unfold unpackUintBE
      rw [if_pos ho4len, fromBytesBE_toBytesBE]
      have hm4 : oid % 256 ^ 4 = oid := Nat.mod_eq_of_lt (by norm_num; omega)
      rw [hm4]
    have hdropP4 : data.drop (p.length + 4) = lb ++ (payload ++ fbs'.flatten) := by
      rw [hdata, drop_append_len,
        show (fb :: fbs').flatten = fb ++ fbs'.flatten from rfl, hshape,
        List.append_assoc, List.append_assoc]
      exact drop_left_of_len _ _ 4 ho4len
    have htakeLb : (data.drop (p.length + 4)).take 4 = lb := by
      rw [hdropP4]
      exact take_left_of_len _ _ 4 hlb4
    have hdropP8 : data.drop (p.length + 8) = payload ++ fbs'.flatten := by
      rw [hdata, drop_append_len,
        show (fb :: fbs').flatten = fb ++ fbs'.flatten from rfl, hshape,
        List.append_assoc]
      refine drop_left_of_len _ _ 8 ?_
      simp [List.length_append, ho4len, hlb4]
    obtain ⟨triples', hwalk', hmap'⟩ :=
      ih fbs' (p ++ fb) data hm'
        (fun x hx => hfl x (List.mem_cons_of_mem it hx)) hdata'
    have hplen' : (p ++ fb).length = p.length + 8 + payload.length := by
      simp [List.length_append, hfblen]
      omega
    rcases hcase with ⟨hv, hpay, hit⟩ | ⟨hv, val, hit, hload⟩
    · -- NULL field
      subst hpay
      refine ⟨(oid, p.length + 8, -1) :: triples', ?_, ?_⟩
      · rw [show (it :: rest).length = rest.length + 1 from rfl,
          walkRecordAux_succ, hoid_step, Option.some_bind]
        show (unpackIntBE 4 ((data.drop (p.length + 4)).take 4)).bind _ = _
        rw [htakeLb, hv, Option.some_bind]
        show (walkRecordAux rest.length data
          (if 0 < (-1 : Int) then p.length + 8 + (-1 : Int).toNat
           else p.length + 8)).map _ = _
        rw [if_neg (by decide)]
        have hoff : p.length + 8 = (p ++ fb).length := by
          rw [hplen']
          simp
        rw [hoff, hwalk', Option.map_some']
      · rw [show loadBinFields data ((oid, p.length + 8, -1) :: triples') =
            (loadBinField data (oid, p.length + 8, -1)).bind fun v =>
              (loadBinFields data triples').map (fun vs => v :: vs) from rfl,
          loadBinField_mk, if_pos rfl, Option.some_bind]
        show (loadBinFields data triples').map _ = _
        rw [hmap', Option.map_some', hit]
    · -- loaded field
      subst hit
      refine ⟨(oid, p.length + 8, (payload.length : Int)) :: triples', ?_, ?_⟩
      · rw [show (some val :: rest).length = rest.length + 1 from rfl,
          walkRecordAux_succ, hoid_step, Option.some_bind]
        show (unpackIntBE 4 ((data.drop (p.length + 4)).take 4)).bind _ = _
        rw [htakeLb, hv, Option.some_bind]
        show (walkRecordAux rest.length data
          (if 0 < (payload.length : Int) then
            p.length + 8 + ((payload.length : Int)).toNat
           else p.length + 8)).map _ = _
        have hoff : (if 0 < (payload.length : Int) then
            p.length + 8 + ((payload.length : Int)).toNat
           else p.length + 8) = (p ++ fb).length := by
          rcases Nat.eq_zero_or_pos payload.length with hz | hpos
          · rw [if_neg (by omega)]
            omega
          · rw [if_pos (by omega)]
            rw [Int.toNat_natCast]
            omega
        rw [hoff, hwalk', Option.map_some']
      · rw [show loadBinFields data
            ((oid, p.length + 8, (payload.length : Int)) :: triples') =
            (loadBinField data (oid, p.length + 8, (payload.length : Int))).bind
              fun v => (loadBinFields data triples').map (fun vs => v :: vs)
            from rfl,
          loadBinField_mk, if_neg (by omega), Int.toNat_natCast,
          hdropP8, take_left_of_len _ _ _ rfl, hload, Option.map_some',
          Option.some_bind]
        show (loadBinFields data triples').map _ = _
        rw [hmap', Option.map_some']

theorem BinaryRecordLoader_BinaryTupleDumper (oid : Nat)
    (c : List (Option PyVal)) (data : ByteStr) (roid : Nat)
    (hd : BinaryTupleDumper_dump oid c = some (data, roid))
    (hfl : ∀ it ∈ c, floatBitsOk it = true) :
    BinaryRecordLoader_load data = some c := by
  unfold BinaryTupleDumper_dump at hd
  rw [Option.bind_eq_some] at hd
  obtain ⟨hdr, hp, hd2⟩ := hd
  rw [Option.map_eq_some'] at hd2
  obtain ⟨fbs, hm, hpair⟩ := hd2
  have hdata : hdr ++ fbs.flatten = data := congrArg Prod.fst hpair
  have hlen4 : hdr.length = 4 := by
    unfold packIntBE at hp
    split at hp
    · injection hp with hp2
      rw [← hp2, toBytesBE_length]
    · exact absurd hp (by simp)
  have htake : data.take 4 = hdr := by
    rw [← hdata]
    exact take_left_of_len _ _ 4 hlen4
  obtain ⟨triples, hwalk, hloadf⟩ :=
    walkRecordAux_spec c fbs hdr data hm hfl hdata.symm
  rw [hlen4] at hwalk
  unfold BinaryRecordLoader_load
  rw [htake, unpackIntBE_packIntBE (by omega) hp, Option.some_bind]
  show (if (c.length : Int) < 0 then some [] else _) = _
  rw [if_neg (by omega)]
  show (walkRecordAux ((c.length : Int)).toNat data 4).bind _ = _
  rw [Int.toNat_natCast, hwalk, Option.some_bind]
  exact hloadf

theorem badstats_eq_nil_iff (rs : List PGresult) :
    ((rs.map (·.status)).filter (fun s => ¬ goodStatus s)).dedup = [] ↔
      ∀ r ∈ rs, goodStatus r.status = true := by
  rw [List.dedup_eq_nil, List.filter_eq_nil_iff]
  constructor
  · intro h r hr
    have := h r.status (List.mem_map_of_mem (·.status) hr)
    simpa using this
  · intro h s hs
    obtain ⟨r, hr, hsr⟩ := List.mem_map.mp hs
    simp [← hsr, h r hr]

theorem executeResults_fatal (st : CursorState) (rs : List PGresult)
    (hne : rs ≠ [])
    (hbad : ¬ ∀ r ∈ rs, goodStatus r.status = true)
    (hlast : (rs.getLast hne).status = .fatalError) :
    executeResults st rs =
      (st, some ⟨class_for_state (rs.getLast hne).sqlstate,
        error_message (rs.getLast hne)⟩) := by
  match rs with
  | r :: rest =>
    simp only [executeResults]
    rw [if_neg (fun h => hbad ((badstats_eq_nil_iff (r :: rest)).mp h))]
    rw [if_pos hlast]

theorem executeResults_copy (st : CursorState) (rs : List PGresult)
    (hne : rs ≠ [])
    (hcopy : ∃ r ∈ rs, r.status = .copyIn ∨ r.status = .copyOut ∨
      r.status = .copyBoth)
    (hlast : (rs.getLast hne).status ≠ .fatalError) :
    executeResults st rs =
      (st, some ⟨.programmingError,
        "COPY cannot be used with execute(); use copy() insead"⟩) := by
  match rs with
  | r :: rest =>
    obtain ⟨rc, hrc, hst⟩ := hcopy
    have hnotgood : ¬ goodStatus rc.status = true := by
      rcases hst with h | h | h <;> rw [h] <;> decide
    simp only [executeResults]
    rw [if_neg (fun h => hnotgood ((badstats_eq_nil_iff (r :: rest)).mp h rc hrc))]
    rw [if_neg hlast]
    rw [if_pos ?_]
    rw [List.any_eq_true]
    refine ⟨rc.status, ?_, by rcases hst with h | h | h <;> rw [h] <;> decide⟩
    rw [List.mem_dedup, List.mem_filter]
    exact ⟨List.mem_map_of_mem (·.status) hrc, by simpa using hnotgood⟩

theorem fetchone_error (decode : PGresult → Nat → Except PyExc (List (Option PyVal)))
    (st : CursorState) (e : PyExc)
    (h : cast_row decode st st.pos = .error e) :
    fetchone decode st = (st, .error e) := by
  unfold fetchone
  rw [h]

theorem fetchone_success (decode : PGresult → Nat → Except PyExc (List (Option PyVal)))
    (st : CursorState) (row : List (Option PyVal))
    (h : cast_row decode st st.pos = .ok (some row)) :
    fetchone decode st = ({ st with pos := st.pos + 1 }, .ok (some row)) := by
  unfold fetchone
  rw [h]

theorem cast_row_none (decode : PGresult → Nat → Except PyExc (List (Option PyVal)))
    (st : CursorState) (n : Nat)
    (h : st.result = none ∨ ∃ res, st.result = some res ∧ res.tuples.length ≤ n) :
    cast_row decode st n = .ok none := by
  unfold cast_row
  rcases h with h | ⟨res, hres, hlen⟩
  · rw [h]
  · rw [hres]
    show (if n ≥ res.tuples.length then _ else _) = _
    rw [if_pos hlen]

theorem fetchone_none (decode : PGresult → Nat → Except PyExc (List (Option PyVal)))
    (st : CursorState)
    (h : st.result = none ∨ ∃ res, st.result = some res ∧ res.tuples.length ≤ st.pos) :
    fetchone decode st = (st, .ok none) := by
  unfold fetchone
  rw [cast_row_none decode st st.pos h]

theorem query2pgAux_cons_ne (c : Nat) (rest : ByteStr) (n : Nat) (hc : c ≠ 37) :
    query2pgAux (c :: rest) n = c :: query2pgAux rest n := by
  rw [query2pgAux.eq_def]
  split
  · simp_all
  · simp_all
  · simp_all
  · simp_all

theorem query2pgAux_pctpct (a b : ByteStr) (n : Nat) :
    ¬ 37 ∈ a → query2pgAux (a ++ 37 :: 37 :: b) n = a ++ 37 :: query2pgAux b n := by
  induction a generalizing n with
  | nil =>
    intro _
    simp [query2pgAux]
  | cons c a ih =>
    intro ha
    have hc : c ≠ 37 := fun h => ha (by simp [h])
    rw [List.cons_append, query2pgAux_cons_ne c _ n hc,
      ih n (fun h => ha (by simp [h]))]
    rfl

theorem executeSend_none (adapt : List PyVal → List (Option ByteStr) × List Nat)
    (binary : Bool) (query : ByteStr) :
    executeSend adapt binary query none = .sendQuery query := rfl

theorem executeSend_empty (adapt : List PyVal → List (Option ByteStr) × List Nat)
    (binary : Bool) (query : ByteStr) :
    executeSend adapt binary query (some []) =
      .sendQuery (query2pgAux query 0) := rfl

theorem executeSend_params (adapt : List PyVal → List (Option ByteStr) × List Nat)
    (binary : Bool) (query : ByteStr) (vs : List PyVal) (hvs : vs ≠ []) :
    executeSend adapt binary query (some vs) =
      .sendQueryParams (query2pgAux query 0) (adapt vs).1
        (List.replicate vs.length Format.text) (adapt vs).2
        (if binary then .binary else .text) := by
  unfold executeSend
  show (if vs = [] then _ else _) = _
  rw [if_neg hvs]
  rfl

theorem find?_filter_ne (m : List ((Nat × Format) × GenAdapter))
    (k k' : Nat × Format) (h : k' ≠ k) :
    (m.filter (fun p => ¬ p.1 = k)).find? (fun p => p.1 = k') =
      m.find? (fun p => p.1 = k') := by
  induction m with
  | nil => rfl
  | cons a m ih =>
    by_cases hak : a.1 = k
    · rw [List.filter_cons_of_neg (by simp [hak])]
      rw [List.find?_cons_of_neg _ (by intro hh; simp at hh; exact h (by rw [← hh, hak]))]
      exact ih
    · rw [List.filter_cons_of_pos (by simp [hak])]
      by_cases hak' : a.1 = k'
      · rw [List.find?_cons_of_pos _ (by simp [hak']),
          List.find?_cons_of_pos _ (by simp [hak'])]
      · rw [List.find?_cons_of_neg _ (by simp [hak']),
          List.find?_cons_of_neg _ (by simp [hak'])]
        exact ih

theorem mapGet_mapSet_same (m : List ((Nat × Format) × GenAdapter))
    (k : Nat × Format) (v : GenAdapter) :
    mapGet (mapSet m k v) k = some v := by
  unfold mapGet mapSet
  rw [List.find?_cons_of_pos _ (by simp)]
  rfl

theorem mapGet_mapSet_other (m : List ((Nat × Format) × GenAdapter))
    (k k' : Nat × Format) (v : GenAdapter) (h : k' ≠ k) :
    mapGet (mapSet m k v) k' = mapGet m k' := by
  unfold mapGet mapSet
  rw [List.find?_cons_of_neg _ (by intro hh; simp at hh; exact h hh.symm)]
  rw [find?_filter_ne m k k' h]

theorem composite_register_spec (info : CompositeTypeInfo) (c : Nat)
    (customFactory : Bool) (reg : Registry) :
    mapGet (composite_register info (some c) customFactory reg).dumpers
        (c, .text) = mapGet reg.dumpers (c, .text) ∧
    mapGet (composite_register info (some c) customFactory reg).dumpers
        (c, .binary) = some (.binaryTupleDumper info.oid info.fieldOids) ∧
    mapGet (composite_register info (some c) customFactory reg).loaders
        (info.oid, .text) = some (.compositeLoader customFactory info.fieldOids) ∧
    mapGet (composite_register info (some c) customFactory reg).loaders
        (info.oid, .binary) = some (.binaryCompositeLoader customFactory) ∧
    (composite_register info (some c) customFactory reg).arrays =
      (if info.array_oid ≠ 0 then reg.arrays ++ [(info.array_oid, info.oid)]
       else reg.arrays) := by
  have hform : composite_register info (some c) customFactory reg =
      { dumpers := mapSet (mapSet reg.dumpers (c, .binary)
          (.textTupleDumper info.oid)) (c, .binary)
          (.binaryTupleDumper info.oid info.fieldOids),
        loaders := mapSet (mapSet reg.loaders (info.oid, .text)
          (.compositeLoader customFactory info.fieldOids)) (info.oid, .binary)
          (.binaryCompositeLoader customFactory),
        arrays := (if info.array_oid ≠ 0 then
          reg.arrays ++ [(info.array_oid, info.oid)] else reg.arrays) } := by
    simp only [composite_register]
    split
    · rfl
    · rfl
  rw [hform]
  refine ⟨?_, ?_, ?_, ?_, rfl⟩
  · rw [mapGet_mapSet_other _ _ _ _ (by simp),
      mapGet_mapSet_other _ _ _ _ (by simp)]
  · rw [mapGet_mapSet_same]
  · rw [mapGet_mapSet_other _ _ _ _ (by simp), mapGet_mapSet_same]
  · rw [mapGet_mapSet_same]

/-! # Claim theorems -/

theorem pyFloatEq_refl (a : Nat) (h : isNaNBits a = false) :
    pyFloatEq a a = true := by
  unfold pyFloatEq
  rw [h]
  simp

theorem load_dump_binary_float (bits : Nat) (hb : bits < 2 ^ 64) :
    load_binary_float8 (dump_binary_float bits).1 = some bits := by
  show load_binary_float8 (toBytesBE 8 bits) = _
  unfold load_binary_float8
  rw [if_pos (toBytesBE_length 8 bits), fromBytesBE_toBytesBE,
    show (256 : Nat) ^ 8 = 2 ^ 64 from by norm_num, Nat.mod_eq_of_lt hb]

theorem load_float_checked {bits : Nat} {s : ByteStr}
    (h : pyFloatStrChecked bits = some s) :
    load_float s = some bits := by
  have hp := List.find?_some h
  exact of_decide_eq_true hp

theorem pyFloatStr_checked {bits : Nat} {s : ByteStr}
    (hnan : isNaNBits bits = false) (h : pyFloatStrChecked bits = some s) :
    pyFloatStr bits = s := by
  unfold pyFloatStr
  rw [if_neg (by simp [hnan]), h]

/-- C1: for the built-in types, loading the dumped bytes through the loader
registered for the returned oid gives back a value Python-equal to the
original: text int through the numeric loader, binary int through the
narrowest integer loader, bool in both formats, binary float for non-NaN
bit patterns, text float whenever str's defining search — the shortest
decimal that reads back as the same bit pattern — selects its string, and
text Decimal for non-NaN values.  (The unqualified claim fails on NaN
floats: see the counterexample.) -/
theorem claim_C1_roundtrip (v : Int) (b : Bool) (bits : Nat) (d : Dec)
    (hlo : -(2 ^ 63 : Int) ≤ v) (hhi : v < 2 ^ 63)
    (hnanf : isNaNBits bits = false) (hbits : bits < 2 ^ 64)
    (hnand : d ≠ .nan) :
    (∃ dd, load_numeric (dump_int v).1 = some dd ∧ decEqInt dd v = true) ∧
    (∃ bb oid, dump_binary_int v = some (bb, oid) ∧
      binaryLoaderFor oid bb = some (.int v)) ∧
    load_bool (dump_bool b).1 = some b ∧
    load_binary_bool (dump_binary_bool b).1 = some b ∧
    (∃ bits2, load_binary_float8 (dump_binary_float bits).1 = some bits2 ∧
      pyFloatEq bits2 bits = true) ∧
    (∀ s, pyFloatStrChecked bits = some s →
      dump_float bits = (s, FLOAT8_OID) ∧
      ∃ bits2, load_float s = some bits2 ∧ pyFloatEq bits2 bits = true) ∧
    (∃ dd, load_numeric (dump_decimal d).1 = some dd ∧ pyDecEq dd d = true) :=
  ⟨⟨.finite (decide (v < 0)) v.natAbs 0, load_numeric_asciiOfInt v,
      decEqInt_int_refl v⟩,
    dump_binary_int_roundtrip v hlo hhi,
    by cases b <;> decide,
    by cases b <;> decide,
    ⟨bits, load_dump_binary_float bits hbits, pyFloatEq_refl bits hnanf⟩,
    fun s h =>
      ⟨by rw [show dump_float bits = (pyFloatStr bits, FLOAT8_OID) from rfl,
          pyFloatStr_checked hnanf h],
        bits, load_float_checked h, pyFloatEq_refl bits hnanf⟩,
    ⟨d, parseDecBytes_decStrBytes d hnand, pyDecEq_refl d hnand⟩⟩

theorem claim_C1_witness :
    (-(2 ^ 63 : Int) ≤ 5 ∧ (5 : Int) < 2 ^ 63 ∧
      isNaNBits 4602678819172646912 = false ∧
      4602678819172646912 < 2 ^ 64 ∧ (Dec.finite false 1 0) ≠ .nan ∧
      pyFloatStrChecked 4602678819172646912 = some [48, 46, 53]) ∧
    ((∃ dd, load_numeric (dump_int 5).1 = some dd ∧ decEqInt dd 5 = true) ∧
     (∃ bb oid, dump_binary_int 5 = some (bb, oid) ∧
       binaryLoaderFor oid bb = some (.int 5)) ∧
     load_bool (dump_bool true).1 = some true ∧
     load_binary_bool (dump_binary_bool true).1 = some true ∧
     (∃ bits2, load_binary_float8
         (dump_binary_float 4602678819172646912).1 = some bits2 ∧
       pyFloatEq bits2 4602678819172646912 = true) ∧
     (dump_float 4602678819172646912 = ([48, 46, 53], FLOAT8_OID) ∧
       ∃ bits2, load_float [48, 46, 53] = some bits2 ∧
         pyFloatEq bits2 4602678819172646912 = true) ∧
     (∃ dd, load_numeric (dump_decimal (.finite false 1 0)).1 = some dd ∧
       pyDecEq dd (.finite false 1 0) = true)) :=
  ⟨⟨by decide, by decide, by decide, by decide, by decide, by decide⟩,
    (claim_C1_roundtrip 5 true 4602678819172646912 (.finite false 1 0)
      (by decide) (by decide) (by decide) (by decide) (by decide)).1,
    (claim_C1_roundtrip 5 true 4602678819172646912 (.finite false 1 0)
      (by decide) (by decide) (by decide) (by decide) (by decide)).2.1,
    (claim_C1_roundtrip 5 true 4602678819172646912 (.finite false 1 0)
      (by decide) (by decide) (by decide) (by decide) (by decide)).2.2.1,
    (claim_C1_roundtrip 5 true 4602678819172646912 (.finite false 1 0)
      (by decide) (by decide) (by decide) (by decide) (by decide)).2.2.2.1,
    (claim_C1_roundtrip 5 true 4602678819172646912 (.finite false 1 0)
      (by decide) (by decide) (by decide) (by decide) (by decide)).2.2.2.2.1,
    (claim_C1_roundtrip 5 true 4602678819172646912 (.finite false 1 0)
      (by decide) (by decide) (by decide) (by decide)
      (by decide)).2.2.2.2.2.1 [48, 46, 53] (by decide),
    (claim_C1_roundtrip 5 true 4602678819172646912 (.finite false 1 0)
      (by decide) (by decide) (by decide) (by decide) (by decide)).2.2.2.2.2.2⟩

/-- C1 counterexample: a quiet-NaN bit pattern survives the binary float
round trip bit-for-bit, but the loaded value is not Python-equal to the
dumped one, because NaN compares unequal to itself; so the unqualified
round-trip equality of the claim is false for float NaN. -/
theorem claim_C1_counterexample :
    isNaNBits 9221120237041090560 = true ∧
    load_binary_float8 (dump_binary_float 9221120237041090560).1 =
      some 9221120237041090560 ∧
    pyFloatEq 9221120237041090560 9221120237041090560 = false := by
  refine ⟨by decide, by decide, by decide⟩

/-- C2: composite round trip.  Text layout: loading the dumped tuple gives
back the fields when the tuple is not the single-NULL tuple and every
non-NULL field is free of adjacent backslashes and, when left unquoted by
the dumper, free of closing parentheses and not starting with an opening
one.  Binary layout: whenever the binary dump succeeds and every float
field carries a genuine binary64 pattern, loading gives back the fields
exactly, with length -1 encoding NULL.  (The unqualified claim fails on
trailing NULLs, backslashes and parentheses in text fields: see the
counterexample.) -/
theorem claim_C2_composite_roundtrip (c : List (Option ByteStr))
    (cv : List (Option PyVal)) (oid : Nat) (data : ByteStr) (roid : Nat)
    (h1 : c ≠ [none])
    (hok : ∀ ad, some ad ∈ c → textFieldOk ad = true)
    (hd : BinaryTupleDumper_dump oid cv = some (data, roid))
    (hfl : ∀ it ∈ cv, floatBitsOk it = true) :
    RecordLoader_load (TextTupleDumper_dump c).1 = c ∧
    BinaryRecordLoader_load data = some cv :=
  ⟨RecordLoader_TextTupleDumper c h1 hok,
    BinaryRecordLoader_BinaryTupleDumper oid cv data roid hd hfl⟩

theorem claim_C2_witness :
    (([some [97], none, some [34]] : List (Option ByteStr)) ≠ [none] ∧
      (∀ ad, some ad ∈ ([some [97], none, some [34]] : List (Option ByteStr)) →
        textFieldOk ad = true) ∧
      BinaryTupleDumper_dump 2249 [some (.int 5), none, some (.bool true)] =
        some ([0, 0, 0, 3, 0, 0, 0, 21, 0, 0, 0, 2, 0, 5, 0, 0, 0, 25,
          255, 255, 255, 255, 0, 0, 0, 16, 0, 0, 0, 1, 1], 2249) ∧
      (∀ it ∈ ([some (.int 5), none, some (.bool true)] : List (Option PyVal)),
        floatBitsOk it = true)) ∧
    RecordLoader_load
        (TextTupleDumper_dump [some [97], none, some [34]]).1 =
      [some [97], none, some [34]] ∧
    BinaryRecordLoader_load
        [0, 0, 0, 3, 0, 0, 0, 21, 0, 0, 0, 2, 0, 5, 0, 0, 0, 25,
          255, 255, 255, 255, 0, 0, 0, 16, 0, 0, 0, 1, 1] =
      some [some (.int 5), none, some (.bool true)] :=
  ⟨⟨by decide,
      by
        intro ad had
        simp at had
        rcases had with h | h <;> subst h <;> decide,
      by decide,
      by
        intro x hx
        simp at hx
        rcases hx with h | h | h <;> subst h <;> decide⟩,
    claim_C2_composite_roundtrip [some [97], none, some [34]]
      [some (.int 5), none, some (.bool true)] 2249 _ 2249
      (by decide)
      (by
        intro ad had
        simp at had
        rcases had with h | h <;> subst h <;> decide)
      (by decide)
      (by
        intro x hx
        simp at hx
        rcases hx with h | h | h <;> subst h <;> decide)⟩

/-- C2 counterexample: four text tuples whose dump does not load back to
the original — the single-NULL tuple collapses to the empty tuple, a pair
of backslashes collapses to one (the dumper doubles only quotes but the
loader undoubles backslashes too), a bare closing parenthesis ends the
record early, and a bare opening parenthesis at the head of a later field
is eaten by the tokenizer. -/
theorem claim_C2_counterexample :
    RecordLoader_load (TextTupleDumper_dump [none]).1 = [] ∧
    RecordLoader_load (TextTupleDumper_dump [some [92, 92]]).1 =
      [some [92]] ∧
    RecordLoader_load (TextTupleDumper_dump [some [41]]).1 = [none, none] ∧
    RecordLoader_load (TextTupleDumper_dump [some [97], some [40, 98]]).1 =
      [some [97], some [98]] := by
  refine ⟨by decide, by decide, by decide, by decide⟩

/-- C3: what composite register actually installs when a class is given —
the binary tuple dumper for (cls, BINARY), the composite text loader for
(oid, TEXT), the binary composite loader for (oid, BINARY), and the array
registration when the array oid is nonzero; the (cls, TEXT) dumper slot is
left untouched, because the source registers the generated text dumper
under format=Format.BINARY (composite.py line 76), where it is immediately
replaced by the binary dumper — contradicting the claim that both a text
and a binary dumper are installed for cls. -/
theorem claim_C3_register (info : CompositeTypeInfo) (c : Nat)
    (customFactory : Bool) (reg : Registry) :
    mapGet (composite_register info (some c) customFactory reg).dumpers
        (c, .text) = mapGet reg.dumpers (c, .text) ∧
    mapGet (composite_register info (some c) customFactory reg).dumpers
        (c, .binary) = some (.binaryTupleDumper info.oid info.fieldOids) ∧
    mapGet (composite_register info (some c) customFactory reg).loaders
        (info.oid, .text) = some (.compositeLoader customFactory info.fieldOids) ∧
    mapGet (composite_register info (some c) customFactory reg).loaders
        (info.oid, .binary) = some (.binaryCompositeLoader customFactory) ∧
    (composite_register info (some c) customFactory reg).arrays =
      (if info.array_oid ≠ 0 then reg.arrays ++ [(info.array_oid, info.oid)]
       else reg.arrays) :=
  composite_register_spec info c customFactory reg

/-- C3 failing input, concretely: registering a composite type with oid 77,
array oid 88 and one int4 field for class 5 on the empty registry leaves no
dumper at all under (5, TEXT), while the claim promises a text dumper for
the class. -/
theorem claim_C3_counterexample :
    mapGet (composite_register ⟨77, 88, [23]⟩ (some 5) false
      ⟨[], [], []⟩).dumpers (5, .text) = none ∧
    mapGet (composite_register ⟨77, 88, [23]⟩ (some 5) false
      ⟨[], [], []⟩).dumpers (5, .binary) =
        some (.binaryTupleDumper 77 [23]) ∧
    mapGet (composite_register ⟨77, 88, [23]⟩ (some 5) false
      ⟨[], [], []⟩).loaders (77, .text) = some (.compositeLoader false [23]) ∧
    mapGet (composite_register ⟨77, 88, [23]⟩ (some 5) false
      ⟨[], [], []⟩).loaders (77, .binary) =
        some (.binaryCompositeLoader false) ∧
    (composite_register ⟨77, 88, [23]⟩ (some 5) false ⟨[], [], []⟩).arrays =
      [(88, 77)] := by
  refine ⟨by decide, by decide, by decide, by decide, by decide⟩

/-- C4: when the last result's status is FATAL_ERROR and not every result
is good, _execute_results raises the exception class selected from the
last result's SQLSTATE by the code-to-class mapping with the rendered
server message, leaving the cursor state unchanged — regardless of any
COPY statuses among the results, so this branch takes precedence over the
COPY check; 23505 maps to UniqueViolation, 40001 to SerializationFailure,
and an unmapped code falls back to DatabaseError. -/
theorem claim_C4_fatal (st : CursorState) (rs : List PGresult)
    (hne : rs ≠ [])
    (hbad : ¬ ∀ r ∈ rs, goodStatus r.status = true)
    (hlast : (rs.getLast hne).status = .fatalError) :
    executeResults st rs =
      (st, some ⟨class_for_state (rs.getLast hne).sqlstate,
        error_message (rs.getLast hne)⟩) ∧
    class_for_state (some [50, 51, 53, 48, 53]) = .uniqueViolation ∧
    class_for_state (some [52, 48, 48, 48, 49]) = .serializationFailure ∧
    class_for_state (some [57, 57, 57, 57, 57]) = .databaseError :=
  ⟨executeResults_fatal st rs hne hbad hlast, by decide, by decide, by decide⟩

theorem claim_C4_witness :
    (([⟨.copyIn, none, "", []⟩,
        ⟨.fatalError, some [50, 51, 53, 48, 53], "boom", []⟩] :
          List PGresult) ≠ [] ∧
      ¬ ∀ r ∈ ([⟨.copyIn, none, "", []⟩,
          ⟨.fatalError, some [50, 51, 53, 48, 53], "boom", []⟩] :
            List PGresult), goodStatus r.status = true) ∧
    executeResults ⟨[], none, 0⟩
        [⟨.copyIn, none, "", []⟩,
          ⟨.fatalError, some [50, 51, 53, 48, 53], "boom", []⟩] =
      (⟨[], none, 0⟩, some ⟨.uniqueViolation, "boom"⟩) := by
  refine ⟨⟨by decide, by decide⟩, ?_⟩
  have h := (claim_C4_fatal ⟨[], none, 0⟩
    [⟨.copyIn, none, "", []⟩,
      ⟨.fatalError, some [50, 51, 53, 48, 53], "boom", []⟩]
    (by decide) (by decide) (by decide)).1
  rw [h]
  rfl

/-- C5: when some result has a COPY status and the last result is not a
fatal error, _execute_results raises ProgrammingError with a message that
mentions copy(), and the cursor state — in particular its stored results —
is unchanged. -/
theorem claim_C5_copy (st : CursorState) (rs : List PGresult)
    (hne : rs ≠ [])
    (hcopy : ∃ r ∈ rs, r.status = .copyIn ∨ r.status = .copyOut ∨
      r.status = .copyBoth)
    (hlast : (rs.getLast hne).status ≠ .fatalError) :
    executeResults st rs =
      (st, some ⟨.programmingError,
        "COPY cannot be used with execute(); use copy() insead"⟩) ∧
    List.IsInfix "copy()".toList
      "COPY cannot be used with execute(); use copy() insead".toList ∧
    (executeResults st rs).1.results = st.results :=
  ⟨executeResults_copy st rs hne hcopy hlast,
    by decide,
    by rw [executeResults_copy st rs hne hcopy hlast]⟩

theorem claim_C5_witness :
    (([⟨.copyIn, none, "", []⟩] : List PGresult) ≠ [] ∧
      (∃ r ∈ ([⟨.copyIn, none, "", []⟩] : List PGresult),
        r.status = .copyIn ∨ r.status = .copyOut ∨ r.status = .copyBoth)) ∧
    executeResults ⟨[], none, 3⟩ [⟨.copyIn, none, "", []⟩] =
      (⟨[], none, 3⟩, some ⟨.programmingError,
        "COPY cannot be used with execute(); use copy() insead"⟩) := by
  refine ⟨⟨by decide, ⟨⟨.copyIn, none, "", []⟩, by decide, by decide⟩⟩, ?_⟩
  exact (claim_C5_copy ⟨[], none, 3⟩ [⟨.copyIn, none, "", []⟩]
    (by decide) ⟨⟨.copyIn, none, "", []⟩, by decide, by decide⟩
    (by decide)).1

/-- C6: the binary integer dumper picks the narrowest fitting oid — int2
exactly on the int2 range (so -32768 still gets int2), int4 exactly
outside it up to the int4 range (so -32769 gets int4), int8 beyond that up
to the int8 range (so 2^31 gets int8) — but not "otherwise": beyond the
int8 range the struct pack raises instead of returning an oid, so the
claim's final case holds only within the int8 range (see the
counterexample). -/
theorem claim_C6_narrowest (v : Int) :
    (-32768 ≤ v ∧ v ≤ 32767 →
      ∃ b, dump_binary_int v = some (b, INT2_OID) ∧ b.length = 2) ∧
    (¬(-32768 ≤ v ∧ v ≤ 32767) ∧ -2147483648 ≤ v ∧ v ≤ 2147483647 →
      ∃ b, dump_binary_int v = some (b, INT4_OID) ∧ b.length = 4) ∧
    (¬(-2147483648 ≤ v ∧ v ≤ 2147483647) ∧
        -(2 ^ 63 : Int) ≤ v ∧ v < 2 ^ 63 →
      ∃ b, dump_binary_int v = some (b, INT8_OID) ∧ b.length = 8) ∧
    (v < -(2 ^ 63 : Int) ∨ 2 ^ 63 ≤ v → dump_binary_int v = none) :=
  dump_binary_int_narrowest v

theorem claim_C6_witness :
    (-32768 ≤ (-32768 : Int) ∧ (-32768 : Int) ≤ 32767) ∧
    (∃ b, dump_binary_int (-32768) = some (b, INT2_OID) ∧ b.length = 2) ∧
    (∃ b, dump_binary_int (-32769) = some (b, INT4_OID) ∧ b.length = 4) ∧
    (∃ b, dump_binary_int (2 ^ 31) = some (b, INT8_OID) ∧ b.length = 8) :=
  ⟨by decide,
    (claim_C6_narrowest (-32768)).1 (by decide),
    (claim_C6_narrowest (-32769)).2.1 (by decide),
    (claim_C6_narrowest (2 ^ 31)).2.2.1 (by decide)⟩

/-- C6 counterexample: at 2^63 the "otherwise" of the claim fails — the
dumper does not return the int8 oid but raises (struct.error, modelled as
none), as the TODO in the source anticipates. -/
theorem claim_C6_counterexample : dump_binary_int (2 ^ 63) = none := by
  decide

/-- C7: fetchone leaves the cursor position (and the whole state)
unchanged when decoding the current row raises, and also when no row is
produced; the position advances by one exactly when a row is successfully
returned. -/
theorem claim_C7_fetchone_position
    (decode : PGresult → Nat → Except PyExc (List (Option PyVal)))
    (st : CursorState) :
    (∀ e, cast_row decode st st.pos = .error e →
      fetchone decode st = (st, .error e)) ∧
    (∀ row, cast_row decode st st.pos = .ok (some row) →
      fetchone decode st = ({ st with pos := st.pos + 1 }, .ok (some row))) ∧
    (cast_row decode st st.pos = .ok none →
      fetchone decode st = (st, .ok none)) :=
  ⟨fun e h => fetchone_error decode st e h,
    fun row h => fetchone_success decode st row h,
    fun h => by unfold fetchone; rw [h]⟩

theorem claim_C7_witness :
    cast_row (fun _ _ => .error ⟨.dataError, "bad byte"⟩)
        ⟨[], some ⟨.tuplesOk, none, "", [[some [49]]]⟩, 0⟩ 0 =
      .error ⟨.dataError, "bad byte"⟩ ∧
    fetchone (fun _ _ => .error ⟨.dataError, "bad byte"⟩)
        ⟨[], some ⟨.tuplesOk, none, "", [[some [49]]]⟩, 0⟩ =
      (⟨[], some ⟨.tuplesOk, none, "", [[some [49]]]⟩, 0⟩,
        .error ⟨.dataError, "bad byte"⟩) :=
  ⟨rfl,
    (claim_C7_fetchone_position (fun _ _ => .error ⟨.dataError, "bad byte"⟩)
      ⟨[], some ⟨.tuplesOk, none, "", [[some [49]]]⟩, 0⟩).1
      ⟨.dataError, "bad byte"⟩ rfl⟩

/-- C8: _execute_send uses the preparer-rewritten query (where a doubled
percent reduces to a single percent) whenever a parameter vector is
supplied, even an empty one; the extended-query packet is used exactly
when the vector is non-empty, the simple-query packet otherwise — with the
original, unrewritten query when no vector is supplied at all. -/
theorem claim_C8_execute_send
    (adapt : List PyVal → List (Option ByteStr) × List Nat) (binary : Bool)
    (query : ByteStr) (vs : List PyVal) (a b : ByteStr) (n : Nat)
    (ha : ¬ 37 ∈ a) (hvs : vs ≠ []) :
    executeSend adapt binary query none = .sendQuery query ∧
    executeSend adapt binary query (some []) =
      .sendQuery (query2pgAux query 0) ∧
    executeSend adapt binary query (some vs) =
      .sendQueryParams (query2pgAux query 0) (adapt vs).1
        (List.replicate vs.length Format.text) (adapt vs).2
        (if binary then .binary else .text) ∧
    query2pgAux (a ++ 37 :: 37 :: b) n = a ++ 37 :: query2pgAux b n :=
  ⟨executeSend_none adapt binary query,
    executeSend_empty adapt binary query,
    executeSend_params adapt binary query vs hvs,
    query2pgAux_pctpct a b n ha⟩

theorem claim_C8_witness :
    (¬ 37 ∈ ([120] : ByteStr) ∧ ([PyVal.int 1] : List PyVal) ≠ []) ∧
    executeSend (fun _ => ([some [49]], [23])) false [37, 37, 115] none =
      .sendQuery [37, 37, 115] ∧
    executeSend (fun _ => ([some [49]], [23])) false [37, 37, 115] (some []) =
      .sendQuery (query2pgAux [37, 37, 115] 0) ∧
    executeSend (fun _ => ([some [49]], [23])) false [37, 37, 115]
        (some [PyVal.int 1]) =
      .sendQueryParams (query2pgAux [37, 37, 115] 0) [some [49]]
        (List.replicate 1 Format.text) [23] Format.text ∧
    query2pgAux ([120] ++ 37 :: 37 :: [121]) 0 =
      [120] ++ 37 :: query2pgAux [121] 0 :=
  ⟨⟨by decide, by decide⟩,
    (claim_C8_execute_send (fun _ => ([some [49]], [23])) false [37, 37, 115]
      [PyVal.int 1] [120] [121] 0 (by decide) (by decide)).1,
    (claim_C8_execute_send (fun _ => ([some [49]], [23])) false [37, 37, 115]
      [PyVal.int 1] [120] [121] 0 (by decide) (by decide)).2.1,
    (claim_C8_execute_send (fun _ => ([some [49]], [23])) false [37, 37, 115]
      [PyVal.int 1] [120] [121] 0 (by decide) (by decide)).2.2.1,
    (claim_C8_execute_send (fun _ => ([some [49]], [23])) false [37, 37, 115]
      [PyVal.int 1] [120] [121] 0 (by decide) (by decide)).2.2.2⟩

/-- C9: fetchone returns None without raising and without moving the
position whenever there is no stored result, or the position is at or past
the number of tuples of the current result — it never indexes past the
end. -/
theorem claim_C9_fetchone_none
    (decode : PGresult → Nat → Except PyExc (List (Option PyVal)))
    (st : CursorState)
    (h : st.result = none ∨
      ∃ res, st.result = some res ∧ res.tuples.length ≤ st.pos) :
    fetchone decode st = (st, .ok none) :=
  fetchone_none decode st h

theorem claim_C9_witness :
    ((⟨[], none, 0⟩ : CursorState).result = none ∨
      ∃ res, (⟨[], none, 0⟩ : CursorState).result = some res ∧
        res.tuples.length ≤ (⟨[], none, 0⟩ : CursorState).pos) ∧
    fetchone (fun _ _ => .ok []) ⟨[], none, 0⟩ = (⟨[], none, 0⟩, .ok none) :=
  ⟨Or.inl rfl,
    claim_C9_fetchone_none (fun _ _ => .ok []) ⟨[], none, 0⟩ (Or.inl rfl)⟩

/-- C10: the text dump of the one-element tuple (None,) is exactly the two
bytes ( ) — the same bytes as the dump of the empty tuple, the trailing
NULL's comma being overwritten by the closing parenthesis — and the record
loader parses those bytes as a record with zero fields. -/
theorem claim_C10_trailing_null :
    (TextTupleDumper_dump [none]).1 = [40, 41] ∧
    (TextTupleDumper_dump []).1 = [40, 41] ∧
    RecordLoader_load [40, 41] = [] := by
  refine ⟨by decide, by decide, by decide⟩
